import Mathlib

/-!
Shallow embedding of the GoPPT slide rasterizer (`renderer.go` of
package `gopresentation`) and verification of its specification claims.

Conventions of the embedding:
* Go `float64` arithmetic is idealised as exact rational arithmetic (`ℚ`);
  constants that are specific float64 values (`math.Pi`, `math.MaxFloat64`)
  are embedded as the exact rational value of that float64.
* Go machine integers (`int`, `int64`) are embedded as `ℤ`; conversions
  `int(f)` of a float truncate toward zero (`trunc64`), `uint8(x)` of a wider
  value is `% 256`.
* The pixel buffer `Pix []uint8` is an `Array ℕ` of byte values; out-of-range
  writes are no-ops (the Go program never performs one, see claim C3).
* External capabilities used by the renderer (the image decoder
  `image.Decode`, the file reader `os.ReadFile`, and the transcendental
  float functions `math.Cos`, `math.Sin`, `math.Sqrt` on non-integer inputs,
  `math.Atan2`) are passed in an explicit environment `Env`.
-/

namespace GoPPT

/-- Go's `int(f)` conversion of a `float64`: truncation toward zero. -/
def trunc64 (q : ℚ) : ℤ := if 0 ≤ q then ⌊q⌋ else ⌈q⌉

/-- `image.Rectangle`: min is inclusive, max exclusive. -/
structure GRect where
  minX : ℤ
  minY : ℤ
  maxX : ℤ
  maxY : ℤ
deriving DecidableEq, Repr

/-- `Rectangle.Dx`. -/
def GRect.dx (r : GRect) : ℤ := r.maxX - r.minX

/-- `Rectangle.Dy`. -/
def GRect.dy (r : GRect) : ℤ := r.maxY - r.minY

/-- `Rectangle.Empty`. -/
def GRect.isEmpty (r : GRect) : Bool := r.maxX ≤ r.minX || r.maxY ≤ r.minY

/-- `image.Rect(x0,y0,x1,y1)`: swaps the coordinates into canonical order. -/
def goRect (x0 y0 x1 y1 : ℤ) : GRect :=
  let p := if x1 < x0 then (x1, x0) else (x0, x1)
  let q := if y1 < y0 then (y1, y0) else (y0, y1)
  ⟨p.1, q.1, p.2, q.2⟩

/-- `Rectangle.Intersect`: clip, and return the zero rectangle when empty. -/
def GRect.intersect (r s : GRect) : GRect :=
  let t : GRect := ⟨max r.minX s.minX, max r.minY s.minY,
                    min r.maxX s.maxX, min r.maxY s.maxY⟩
  if t.isEmpty then ⟨0, 0, 0, 0⟩ else t

/-- Membership of a pixel coordinate in a rectangle. -/
def GRect.mem (r : GRect) (x y : ℤ) : Prop :=
  r.minX ≤ x ∧ x < r.maxX ∧ r.minY ≤ y ∧ y < r.maxY

instance (r : GRect) (x y : ℤ) : Decidable (r.mem x y) := by
  unfold GRect.mem; infer_instance

/-- `color.RGBA`: four byte channels, alpha stored un-premultiplied by this
renderer's convention. -/
structure RGBA where
  r : ℕ
  g : ℕ
  b : ℕ
  a : ℕ
deriving DecidableEq, Repr

/-- The channels are byte values (enforced by Go's `uint8` fields). -/
def RGBA.WF (c : RGBA) : Prop := c.r < 256 ∧ c.g < 256 ∧ c.b < 256 ∧ c.a < 256

instance (c : RGBA) : Decidable c.WF := by unfold RGBA.WF; infer_instance

/-- `image.RGBA`: bounds, stride and the flat byte buffer. -/
structure Canvas where
  bounds : GRect
  stride : ℤ
  pix : Array ℕ
deriving Repr

/-- `image.NewRGBA`: stride is `4*Dx`, buffer is `4*Dx*Dy` zero bytes. -/
def newRGBA (r : GRect) : Canvas :=
  ⟨r, 4 * r.dx, Array.mkArray (4 * r.dx * r.dy).toNat 0⟩

/-- `RGBA.PixOffset(x,y)`: byte offset of pixel `(x,y)` in the buffer. -/
def Canvas.off (cv : Canvas) (x y : ℤ) : ℤ :=
  (y - cv.bounds.minY) * cv.stride + (x - cv.bounds.minX) * 4

/-- Read one byte of the buffer (0 when out of range, which the source never
does). -/
def Canvas.getByte (cv : Canvas) (i : ℤ) : ℕ :=
  if 0 ≤ i then cv.pix.getD i.toNat 0 else 0

/-- Write one byte of the buffer; out-of-range writes are no-ops (the Go
program never performs one). -/
def Canvas.setByte (cv : Canvas) (i : ℤ) (v : ℕ) : Canvas :=
  if h : 0 ≤ i ∧ i.toNat < cv.pix.size then
    { cv with pix := cv.pix.set ⟨i.toNat, h.2⟩ v }
  else cv

/-- The pixel `(x,y)` is inside the canvas bounds. -/
def Canvas.inBounds (cv : Canvas) (x y : ℤ) : Prop := cv.bounds.mem x y

instance (cv : Canvas) (x y : ℤ) : Decidable (cv.inBounds x y) := by
  unfold Canvas.inBounds; infer_instance

/-- The four bytes of pixel `(x,y)` read back as a colour. -/
def Canvas.getPixel (cv : Canvas) (x y : ℤ) : RGBA :=
  let o := cv.off x y
  ⟨cv.getByte o, cv.getByte (o + 1), cv.getByte (o + 2), cv.getByte (o + 3)⟩

/-- Structural well-formedness of a canvas produced by `image.NewRGBA`:
stride is `4*width`, the buffer covers exactly the bounds, and every byte is a
byte value. -/
def Canvas.WF (cv : Canvas) : Prop :=
  cv.stride = 4 * cv.bounds.dx ∧
  (cv.pix.size : ℤ) = cv.stride * cv.bounds.dy ∧
  ∀ i : ℕ, cv.pix.getD i 0 < 256

/-- Write the four bytes of a pixel directly (`blendPixel`'s `c.A == 255`
fast path, renderer.go:256-261). -/
def setBytes4 (cv : Canvas) (o : ℤ) (v0 v1 v2 v3 : ℕ) : Canvas :=
  ((((cv.setByte o v0).setByte (o + 1) v1).setByte (o + 2) v2).setByte (o + 3) v3)

/-- The translucent compose of `blendPixel` (renderer.go:263-268) at byte
offset `o`: `cr`,`cg`,`cb` are the source channels already multiplied by the
alpha `a` (in `fillRectBlend` the source computes them once per rectangle). -/
def blendBytesAt (cv : Canvas) (o : ℤ) (cr cg cb a : ℕ) : Canvas :=
  let ia := 255 - a
  let p0 := cv.getByte o
  let p1 := cv.getByte (o + 1)
  let p2 := cv.getByte (o + 2)
  let p3 := cv.getByte (o + 3)
  setBytes4 cv o ((cr + p0 * ia) / 255 % 256) ((cg + p1 * ia) / 255 % 256)
    ((cb + p2 * ia) / 255 % 256) ((p3 + (255 - p3) * a / 255) % 256)

/-- `renderer.blendPixel` (renderer.go:246-269): bounds check, skip on zero
alpha, direct write on full alpha, translucent compose otherwise. -/
def blendPixel (cv : Canvas) (x y : ℤ) (c : RGBA) : Canvas :=
  let b := cv.bounds
  if x < b.minX ∨ x ≥ b.maxX ∨ y < b.minY ∨ y ≥ b.maxY then cv
  else if c.a = 0 then cv
  else
    let o := cv.off x y
    if c.a = 255 then setBytes4 cv o c.r c.g c.b 255
    else blendBytesAt cv o (c.r * c.a) (c.g * c.a) (c.b * c.a) c.a

/-- `renderer.blendPixelF` (renderer.go:272-281): fractional coverage;
`uint8(float64(c.A) * coverage)` truncates. -/
def blendPixelF (cv : Canvas) (x y : ℤ) (c : RGBA) (coverage : ℚ) : Canvas :=
  if coverage ≤ 0 then cv
  else if coverage ≥ 1 then blendPixel cv x y c
  else blendPixel cv x y ⟨c.r, c.g, c.b, (trunc64 ((c.a : ℚ) * coverage)).toNat % 256⟩

/-- One destination byte of Go's `image/draw.drawFillOver`:
`uint8((uint32(d)*a/m + s) >> 8)` with `m = 0xffff`. `s` is the 16-bit source
channel (`c.RGBA()`, i.e. the byte times `0x101`), `a = (m - sa)*0x101`. -/
def goFillOverByte (d s a : ℕ) : ℕ := (d * a / 65535 + s) / 256 % 256

/-- One row of `drawFillOver`: write `n` pixels starting at byte offset `o`. -/
def fillOverRow (cv : Canvas) (o : ℤ) (sr sg sb sa a : ℕ) : ℕ → Canvas
  | 0 => cv
  | n + 1 =>
    let cv := setBytes4 cv o (goFillOverByte (cv.getByte o) sr a)
      (goFillOverByte (cv.getByte (o + 1)) sg a)
      (goFillOverByte (cv.getByte (o + 2)) sb a)
      (goFillOverByte (cv.getByte (o + 3)) sa a)
    fillOverRow cv (o + 4) sr sg sb sa a n

/-- The rows of `drawFillOver` over a clipped rectangle. -/
def fillOverRows (cv : Canvas) (o : ℤ) (w : ℕ) (stride : ℤ) (sr sg sb sa a : ℕ) :
    ℕ → Canvas
  | 0 => cv
  | n + 1 => fillOverRows (fillOverRow cv o sr sg sb sa a w) (o + stride) w stride
      sr sg sb sa a n

/-- `renderer.fillRectFast` (renderer.go:284-286): `draw.Draw` of a uniform
colour with `draw.Over`, which clips to the canvas bounds and runs the stdlib
`drawFillOver` loop. -/
def fillRectFast (cv : Canvas) (rect : GRect) (c : RGBA) : Canvas :=
  let r := rect.intersect cv.bounds
  let sr := c.r % 256 * 257
  let sg := c.g % 256 * 257
  let sb := c.b % 256 * 257
  let sa := c.a % 256 * 257
  let a := (65535 - sa) * 257
  fillOverRows cv (cv.off r.minX r.minY) r.dx.toNat cv.stride sr sg sb sa a r.dy.toNat

/-- One row of `fillRectBlend`'s translucent loop (renderer.go:310-319). -/
def blendRow (cv : Canvas) (o : ℤ) (cr cg cb a : ℕ) : ℕ → Canvas
  | 0 => cv
  | n + 1 => blendRow (blendBytesAt cv o cr cg cb a) (o + 4) cr cg cb a n

/-- The rows of `fillRectBlend`'s translucent loop. -/
def blendRows (cv : Canvas) (o : ℤ) (w : ℕ) (stride : ℤ) (cr cg cb a : ℕ) :
    ℕ → Canvas
  | 0 => cv
  | n + 1 => blendRows (blendRow cv o cr cg cb a w) (o + stride) w stride cr cg cb a n

/-- `renderer.fillRectBlend` (renderer.go:289-321): clip, skip `a == 0`,
delegate `a == 255` to the opaque fast path, otherwise blend row by row with
the per-rectangle premultiplied channel numerators `cr,cg,cb`. -/
def fillRectBlend (cv : Canvas) (rect : GRect) (c : RGBA) : Canvas :=
  let rect := rect.intersect cv.bounds
  if rect.isEmpty then cv
  else if c.a = 0 then cv
  else if c.a = 255 then fillRectFast cv rect c
  else
    let a := c.a
    blendRows cv (cv.off rect.minX rect.minY) rect.dx.toNat cv.stride
      (c.r * a) (c.g * a) (c.b * a) a rect.dy.toNat

/-- `renderer.drawRect` (renderer.go:833-844): for each of `width` rings, fill
the top and bottom rows and blend the left and right columns. -/
def drawRect (cv : Canvas) (rect : GRect) (c : RGBA) (width : ℕ) : Canvas :=
  (List.range width).foldl (fun cv (i : ℕ) =>
    let i : ℤ := i
    let cv := fillRectBlend cv (goRect rect.minX (rect.minY + i) rect.maxX (rect.minY + i + 1)) c
    let cv := fillRectBlend cv (goRect rect.minX (rect.maxY - 1 - i) rect.maxX (rect.maxY - i)) c
    (List.range (rect.maxY - rect.minY).toNat).foldl (fun cv (j : ℕ) =>
      let y := rect.minY + (j : ℤ)
      let cv := blendPixel cv (rect.minX + i) y c
      blendPixel cv (rect.maxX - 1 - i) y c) cv) cv

/-! ### Polygon scanline fill (renderer.go:1198-1251) -/

/-- `fpoint` (renderer.go:1198): a float64 point. -/
structure FPoint where
  x : ℚ
  y : ℚ
deriving DecidableEq, Repr

/-- Minimum and maximum `y` over the points, seeded from the first point
(renderer.go:1205-1214). -/
def polyMinMaxY (p0 : FPoint) (rest : List FPoint) : ℚ × ℚ :=
  rest.foldl (fun mm p =>
    (if p.y < mm.1 then p.y else mm.1, if p.y > mm.2 then p.y else mm.2))
    (p0.y, p0.y)

/-- The contribution of edge `(pi, pj)` to scanline `fy`, exactly as the body
of the edge loop (renderer.go:1220-1235): order the endpoint `y`s, skip when
`fy < py1 || fy ≥ py2`, skip zero-height edges, otherwise interpolate. -/
def edgeIntersect (p q : FPoint) (fy : ℚ) : Option ℚ :=
  let py1 := p.y
  let py2 := q.y
  let s := if py1 > py2 then (py2, py1) else (py1, py2)
  if fy < s.1 ∨ fy ≥ s.2 then none
  else
    let dy := q.y - p.y
    if dy = 0 then none
    else some (p.x + (fy - p.y) / dy * (q.x - p.x))

/-- The intersection list a scanline accumulates: one pass over the edges
`(pts[i], pts[(i+1) % n])` in index order (renderer.go:1219-1236). -/
def scanIntersections (pts : List FPoint) (fy : ℚ) : List ℚ :=
  (List.range pts.length).filterMap fun i =>
    edgeIntersect (pts.getD i ⟨0, 0⟩) (pts.getD ((i + 1) % pts.length) ⟨0, 0⟩) fy

/-- Fill the spans of one scanline: pair the sorted intersections adjacently
and fill `[ceil x1, floor x2]` inclusive, opaque colours through the fast
path (renderer.go:1238-1249). -/
def fillPairs (cv : Canvas) (y : ℤ) (c : RGBA) : List ℚ → Canvas
  | x1 :: x2 :: rest =>
    let i1 : ℤ := ⌈x1⌉
    let i2 : ℤ := ⌊x2⌋
    let cv :=
      if i1 ≤ i2 then
        if c.a = 255 then fillRectFast cv (goRect i1 y (i2 + 1) (y + 1)) c
        else fillRectBlend cv (goRect i1 y (i2 + 1) (y + 1)) c
      else cv
    fillPairs cv y c rest
  | _ => cv

/-- `sort.Float64s`: sort ascending. -/
def sortAscending (xs : List ℚ) : List ℚ := xs.mergeSort fun a b => decide (a ≤ b)

/-- `renderer.fillPolygon` (renderer.go:1201-1251): scanline polygon fill.
Scanlines run from `int(minY)` to `int(maxY)` inclusive; each uses the pixel
centre `fy = y + 0.5`. -/
def fillPolygon (cv : Canvas) (pts : List FPoint) (c : RGBA) : Canvas :=
  match pts with
  | p0 :: _ :: _ :: _ =>
    let mm := polyMinMaxY p0 pts.tail
    let y0 := trunc64 mm.1
    let y1 := trunc64 mm.2
    (List.range (y1 - y0 + 1).toNat).foldl (fun cv (k : ℕ) =>
      let y := y0 + (k : ℤ)
      let fy : ℚ := (y : ℚ) + 1/2
      fillPairs cv y c (sortAscending (scanIntersections pts fy))) cv
  | _ => cv

/-- The spec's wording of the edge rule: an edge `(pi, pj)` contributes iff
`min(pi.y, pj.y) ≤ fy < max(pi.y, pj.y)`, with intersection
`pi.x + (fy − pi.y)/(pj.y − pi.y) · (pj.x − pi.x)`; degenerate zero-height
edges are skipped (subsumed by the strict inequality). -/
def edgeIntersectSpec (p q : FPoint) (fy : ℚ) : Option ℚ :=
  if min p.y q.y ≤ fy ∧ fy < max p.y q.y then
    some (p.x + (fy - p.y) / (q.y - p.y) * (q.x - p.x))
  else none

/-- The intersection list per the spec's edge rule. -/
def scanIntersectionsSpec (pts : List FPoint) (fy : ℚ) : List ℚ :=
  (List.range pts.length).filterMap fun i =>
    edgeIntersectSpec (pts.getD i ⟨0, 0⟩) (pts.getD ((i + 1) % pts.length) ⟨0, 0⟩) fy

/-- Polygon fill as the spec words it: same scan range and pixel-centre
scanlines, intersections chosen by the spec's min/max rule, sorted ascending,
paired adjacently, spans `[ceil x_k, floor x_(k+1)]` filled inclusive. -/
def fillPolygonSpec (cv : Canvas) (pts : List FPoint) (c : RGBA) : Canvas :=
  match pts with
  | p0 :: _ :: _ :: _ =>
    let mm := polyMinMaxY p0 pts.tail
    let y0 := trunc64 mm.1
    let y1 := trunc64 mm.2
    (List.range (y1 - y0 + 1).toNat).foldl (fun cv (k : ℕ) =>
      let y := y0 + (k : ℤ)
      let fy : ℚ := (y : ℚ) + 1/2
      fillPairs cv y c (sortAscending (scanIntersectionsSpec pts fy))) cv
  | _ => cv

/-! ### Angles and pie slices (renderer.go:2133-2275) -/

/-- The exact rational value of the float64 constant `math.Pi`
(`884279719003555 / 2^48`). -/
def pi64 : ℚ := 884279719003555 / 281474976710656

/-- `2 * math.Pi` (exact in float64, and exact here). -/
def twoPi : ℚ := 2 * pi64

/-- The first loop of `angleInSweep`'s `norm` (renderer.go:2195-2197):
`for a < 0 { a += 2*pi }`. -/
def normUp (a : ℚ) : ℚ :=
  if a < 0 then normUp (a + twoPi) else a
termination_by (⌈-a / twoPi⌉).toNat
decreasing_by
  have ht : (0 : ℚ) < twoPi := by norm_num [twoPi, pi64]
  have h1 : -(a + twoPi) / twoPi = -a / twoPi - 1 := by
    field_simp
    ring
  rw [h1, Int.ceil_sub_one]
  have h2 : 0 < ⌈-a / twoPi⌉ := Int.ceil_pos.mpr (div_pos (by linarith) ht)
  omega

/-- The second loop of `angleInSweep`'s `norm` (renderer.go:2198-2200):
`for a >= 2*pi { a -= 2*pi }`. -/
def normDown (a : ℚ) : ℚ :=
  if a ≥ twoPi then normDown (a - twoPi) else a
termination_by (⌊a / twoPi⌋).toNat
decreasing_by
  have ht : (0 : ℚ) < twoPi := by norm_num [twoPi, pi64]
  have h1 : (a - twoPi) / twoPi = a / twoPi - 1 := by
    field_simp
  rw [h1, Int.floor_sub_one]
  have h2 : 0 < ⌊a / twoPi⌋ :=
    Int.floor_pos.mpr ((one_le_div ht).mpr (by linarith))
  omega

/-- `norm` of `angleInSweep`: normalise an angle into `[0, 2π)`. -/
def normAngle (a : ℚ) : ℚ := normDown (normUp a)

/-- `angleInSweep` (renderer.go:2193-2211): is `angle` within the sweep from
`start` to `e`, all three normalised to `[0, 2π)`. -/
def angleInSweep (angle start e : ℚ) : Bool :=
  let a := normAngle angle
  let s := normAngle start
  let e := normAngle e
  if s ≤ e then decide (s ≤ a) && decide (a ≤ e)
  else decide (s ≤ a) || decide (a ≤ e)

/-- External capabilities of the renderer: the image decoder and file reader
(`image.Decode`, `os.ReadFile`) and the transcendental float64 functions.
`atan2 dy dx` is `math.Atan2(float64(dy), float64(dx))`. -/
structure Env where
  decode : List ℕ → Option Canvas
  readFile : String → Option (List ℕ)
  atan2 : ℤ → ℤ → ℚ
  cosF : ℚ → ℚ
  sinF : ℚ → ℚ
  sqrtF : ℚ → ℚ

/-- `renderer.fillPieSlice` (renderer.go:2174-2191): row scan of the disc;
`int(math.Sqrt(float64(r2 - dy2)))` is exact integer square root for the
radii in range, embedded as `Nat.sqrt`. -/
def fillPieSlice (env : Env) (cv : Canvas) (cx cy radius : ℤ) (startA endA : ℚ)
    (c : RGBA) : Canvas :=
  let r2 := radius * radius
  (List.range (2 * radius + 1).toNat).foldl (fun cv (i : ℕ) =>
    let dy := -radius + (i : ℤ)
    let dy2 := dy * dy
    if dy2 > r2 then cv
    else
      let maxDx : ℤ := Nat.sqrt (r2 - dy2).toNat
      (List.range (2 * maxDx + 1).toNat).foldl (fun cv (j : ℕ) =>
        let dx := -maxDx + (j : ℤ)
        let angle := env.atan2 dy dx
        if angleInSweep angle startA endA then blendPixel cv (cx + dx) (cy + dy) c
        else cv) cv) cv

/-! ### Charts (renderer.go:1917-2075, 2133-2172)

The chart model structures (`ChartSeries`, `BarChart`, …) are declared in a
repository file that is not under `src/`; their fields are modelled from the
spec and from how renderer.go reads them. -/

/-- Modelled from the spec: a chart series carries its category list, a
value map (Go `map[string]float64`, lookups of missing keys yield 0) and an
optional fill-colour override (Go encodes "no override" as an empty or
all-zero ARGB string). -/
structure ChartSeries where
  categories : List String
  values : List (String × ℚ)
  fillColor : Option RGBA

/-- Go map lookup `s.Values[cat]` with the zero value for missing keys. -/
def mapLookup (m : List (String × ℚ)) (k : String) : ℚ :=
  ((m.find? fun p => p.1 == k).map Prod.snd).getD 0

/-- Modelled from the spec: a bar chart is a list of series. -/
structure BarChart where
  series : List ChartSeries

/-- `defaultChartPalette` (renderer.go:1919-1928). -/
def chartColors : List RGBA :=
  [⟨79, 129, 189, 255⟩, ⟨192, 80, 77, 255⟩, ⟨155, 187, 89, 255⟩,
   ⟨128, 100, 162, 255⟩, ⟨75, 172, 198, 255⟩, ⟨247, 150, 70, 255⟩,
   ⟨119, 44, 42, 255⟩, ⟨77, 93, 58, 255⟩]

/-- `getSeriesColor` (renderer.go:1936-1941): the series' own fill colour if
set, else the palette colour for its index. -/
def getSeriesColor (s : ChartSeries) (idx : ℕ) (palette : List RGBA) : RGBA :=
  match s.fillColor with
  | some col => col
  | none => palette.getD (idx % palette.length) ⟨0, 0, 0, 0⟩

/-- One step of the min/max scan of `renderBarChart` (renderer.go:2033-2043):
state is `(minVal, maxVal, first)`. -/
def rangeStep (st : ℚ × ℚ × Bool) (v : ℚ) : ℚ × ℚ × Bool :=
  match st with
  | (_, _, true) => (v, v, false)
  | (mn, mx, false) => (if v < mn then v else mn, if v > mx then v else mx, false)

/-- The raw value scan of `renderBarChart` (renderer.go:2027-2044): for every
series, every category's looked-up value, seeded by a `first` flag from
`(0, 0)`. -/
def barChartRawRange (series : List ChartSeries) : ℚ × ℚ × Bool :=
  series.foldl (fun st s =>
    (s.categories.map (mapLookup s.values)).foldl rangeStep st) (0, 0, true)

/-- The range clamps of the axis-bearing charts (renderer.go:2045-2050 and
identically at 2156-2161 of `renderLineChart`, 2294-2299 of
`renderAreaChart`, 2360-2365 of `renderScatterChart`): force `min` to 0 when
positive, then force `max` to `min + 1` when not above `min`. -/
def adjustRange (mn mx : ℚ) : ℚ × ℚ :=
  let mn := if mn > 0 then 0 else mn
  let mx := if mx ≤ mn then mn + 1 else mx
  (mn, mx)

/-- The `(minVal, maxVal)` pair `renderBarChart` scales bars with. -/
def barChartRange (series : List ChartSeries) : ℚ × ℚ :=
  let st := barChartRawRange series
  adjustRange st.1 st.2.1

/-- The exact rational value of the float64 constant `math.MaxFloat64`,
`2^1024 - 2^971`. -/
def maxFloat64 : ℚ := 179769313486231570814527423731704356798070567525844996598917476803157260780028538760589558632766878171540458953514382464234321326889464182768467546703537516986049910576551282076245490090389328944075868508455133942304583236903222948165808559332123348274797826204144723168738177180919299881250404026184124858368

/-- One step of the min/max scan of `renderLineChart` / `renderAreaChart` /
`renderScatterChart` (renderer.go:2083-2093 etc.). -/
def lineRangeStep (st : ℚ × ℚ) (v : ℚ) : ℚ × ℚ :=
  (if v < st.1 then v else st.1, if v > st.2 then v else st.2)

/-- The `(minVal, maxVal)` pair of `renderLineChart` (renderer.go:2082-2099),
and identically of `renderAreaChart` (2281-2300) and `renderScatterChart`
(2346-2366): scan the raw map values seeded from
`(math.MaxFloat64, -math.MaxFloat64)`, then apply the same clamps. -/
def lineChartRange (series : List ChartSeries) : ℚ × ℚ :=
  let st := series.foldl (fun st s =>
    (s.values.map Prod.snd).foldl lineRangeStep st) (maxFloat64, -maxFloat64)
  adjustRange st.1 st.2

/-- Go `a / b` on `int`: T-division (truncated toward zero). -/
def idiv (a b : ℤ) : ℤ := Int.tdiv a b

/-- Fuel-indexed core of the Bresenham loop of `renderer.drawLine`
(renderer.go:902-928).  The loop needs exactly `max(dx,dy)+1` iterations, so
the fuel `dx+dy+1` supplied by `drawLine` never runs out. -/
def bresenham (cv : Canvas) (x1 y1 x2 y2 dx dy sx sy err : ℤ) (c : RGBA) :
    ℕ → Canvas
  | 0 => cv
  | fuel + 1 =>
    let cv := blendPixel cv x1 y1 c
    if x1 = x2 ∧ y1 = y2 then cv
    else
      let e2 := 2 * err
      let s1 := if e2 > -dy then (err - dy, x1 + sx) else (err, x1)
      let s2 := if e2 < dx then (s1.1 + dx, y1 + sy) else (s1.1, y1)
      bresenham cv s1.2 s2.2 x2 y2 dx dy sx sy s2.1 c fuel

/-- `renderer.drawLine` (renderer.go:902-928): Bresenham. -/
def drawLine (cv : Canvas) (x1 y1 x2 y2 : ℤ) (c : RGBA) : Canvas :=
  let dx := |x2 - x1|
  let dy := |y2 - y1|
  let sx : ℤ := if x1 > x2 then -1 else 1
  let sy : ℤ := if y1 > y2 then -1 else 1
  bresenham cv x1 y1 x2 y2 dx dy sx sy (dx - dy) c (dx + dy + 1).toNat

/-- `renderer.renderBarChart` (renderer.go:2012-2075): value range, axes,
then one bar per `(category, series)` pair. -/
def renderBarChart (cv : Canvas) (c : BarChart) (px py pw ph : ℤ) : Canvas :=
  match c.series with
  | [] => cv
  | s0 :: _ =>
    let palette := chartColors
    let cats := s0.categories
    let mm := barChartRange c.series
    let minVal := mm.1
    let valRange := mm.2 - mm.1
    let axisColor : RGBA := ⟨128, 128, 128, 255⟩
    let cv := drawLine cv px (py + ph) (px + pw) (py + ph) axisColor
    let cv := drawLine cv px py px (py + ph) axisColor
    let nCats : ℤ := cats.length
    let nSeries : ℤ := c.series.length
    if nCats = 0 then cv
    else
      let catW := idiv pw nCats
      let barW0 := idiv catW (nSeries + 1)
      let barW := if barW0 < 1 then 1 else barW0
      (List.range cats.length).foldl (fun cv (ci : ℕ) =>
        (List.range c.series.length).foldl (fun cv (si : ℕ) =>
          let s := c.series.getD si ⟨[], [], none⟩
          let v := mapLookup s.values (cats.getD ci "")
          let barH := trunc64 ((ph : ℚ) * (v - minVal) / valRange)
          let bx := px + (ci : ℤ) * catW + ((si : ℤ) + 1) * barW - idiv barW 2
          let by_ := py + ph - barH
          let sc := getSeriesColor s si palette
          fillRectBlend cv (goRect bx by_ (bx + barW - 1) (py + ph)) sc) cv) cv

/-- The positive-value total of `renderPieChart` (renderer.go:2140-2149):
sum the positive looked-up values of the first series. -/
def pieTotal (s : ChartSeries) : ℚ :=
  s.categories.foldl (fun t cat =>
    let v := mapLookup s.values cat
    if v > 0 then t + v else t) 0

/-- `renderer.renderPieChart` (renderer.go:2133-2172): skip on no series, no
categories, zero positive total or radius < 5; otherwise sweep clockwise from
`-π/2`, skipping non-positive values. -/
def renderPieChart (env : Env) (cv : Canvas) (series : List ChartSeries)
    (px py pw ph : ℤ) : Canvas :=
  match series with
  | [] => cv
  | s :: _ =>
    if s.categories.length = 0 then cv
    else
      let total := pieTotal s
      if total = 0 then cv
      else
        let cx := px + idiv pw 2
        let cy := py + idiv ph 2
        let radius := idiv (min pw ph) 2
        if radius < 5 then cv
        else
          let st := s.categories.foldl (fun (st : Canvas × ℚ × ℕ) cat =>
            let (cv, startAngle, i) := st
            let v := mapLookup s.values cat
            if v ≤ 0 then (cv, startAngle, i + 1)
            else
              let sweep := 2 * pi64 * v / total
              let endAngle := startAngle + sweep
              let sc := chartColors.getD (i % chartColors.length) ⟨0, 0, 0, 0⟩
              (fillPieSlice env cv cx cy radius startAngle endAngle sc, endAngle, i + 1))
            (cv, -pi64 / 2, 0)
          st.1

/-- Modelled from the spec: a doughnut chart carries its series list and a
hole-size percentage (the declaration is not under `src/`; renderer.go:2213
and 2234 read `c.Series` and `c.HoleSize`). -/
structure DoughnutChart where
  series : List ChartSeries
  holeSize : ℤ

/-- `renderer.fillDoughnutSlice` (renderer.go:2254-2275): like
`fillPieSlice` but with an inner-radius cutout — a pixel with
`dx*dx + dy*dy < innerR*innerR` is skipped. -/
def fillDoughnutSlice (env : Env) (cv : Canvas) (cx cy innerR outerR : ℤ)
    (startA endA : ℚ) (c : RGBA) : Canvas :=
  let or2 := outerR * outerR
  let ir2 := innerR * innerR
  (List.range (2 * outerR + 1).toNat).foldl (fun cv (i : ℕ) =>
    let dy := -outerR + (i : ℤ)
    let dy2 := dy * dy
    if dy2 > or2 then cv
    else
      let maxDx : ℤ := Nat.sqrt (or2 - dy2).toNat
      (List.range (2 * maxDx + 1).toNat).foldl (fun cv (j : ℕ) =>
        let dx := -maxDx + (j : ℤ)
        let d2 := dx * dx + dy2
        if d2 < ir2 then cv
        else
          let angle := env.atan2 dy dx
          if angleInSweep angle startA endA then blendPixel cv (cx + dx) (cy + dy) c
          else cv) cv) cv

/-- The positive-value total of `renderDoughnutChart` (renderer.go:2220-2229),
the same scan as `pieTotal`: sum the positive looked-up values of the first
series. -/
def doughnutTotal (s : ChartSeries) : ℚ :=
  s.categories.foldl (fun t cat =>
    let v := mapLookup s.values cat
    if v > 0 then t + v else t) 0

/-- `renderer.renderDoughnutChart` (renderer.go:2213-2250): skip on no
series, no categories, zero positive total or outer radius < 5; otherwise
sweep clockwise from `-π/2`, skipping non-positive values;
`innerR := outerR * c.HoleSize / 100` in Go int arithmetic. -/
def renderDoughnutChart (env : Env) (cv : Canvas) (c : DoughnutChart)
    (px py pw ph : ℤ) : Canvas :=
  match c.series with
  | [] => cv
  | s :: _ =>
    if s.categories.length = 0 then cv
    else
      let total := doughnutTotal s
      if total = 0 then cv
      else
        let cx := px + idiv pw 2
        let cy := py + idiv ph 2
        let outerR := idiv (min pw ph) 2
        let innerR := idiv (outerR * c.holeSize) 100
        if outerR < 5 then cv
        else
          let st := s.categories.foldl (fun (st : Canvas × ℚ × ℕ) cat =>
            let (cv, startAngle, i) := st
            let v := mapLookup s.values cat
            if v ≤ 0 then (cv, startAngle, i + 1)
            else
              let sweep := 2 * pi64 * v / total
              let endAngle := startAngle + sweep
              let sc := chartColors.getD (i % chartColors.length) ⟨0, 0, 0, 0⟩
              (fillDoughnutSlice env cv cx cy innerR outerR startAngle endAngle sc,
                endAngle, i + 1))
            (cv, -pi64 / 2, 0)
          st.1

/-! ### Image compositing (renderer.go:337-409, 2543-2640) -/

/-- The byte compose of Go `image/draw`'s copy-over at one offset: the source
pixel's four bytes `s0..s3` over the destination bytes, premultiplied 16-bit
stdlib arithmetic (`drawCopyOver`). -/
def copyOverBytes (dst : Canvas) (o : ℤ) (s0 s1 s2 s3 : ℕ) : Canvas :=
  let a := (65535 - s3 % 256 * 257) * 257
  setBytes4 dst o (goFillOverByte (dst.getByte o) (s0 % 256 * 257) a)
    (goFillOverByte (dst.getByte (o + 1)) (s1 % 256 * 257) a)
    (goFillOverByte (dst.getByte (o + 2)) (s2 % 256 * 257) a)
    (goFillOverByte (dst.getByte (o + 3)) (s3 % 256 * 257) a)

/-- `draw.Draw(dst, rect, src, image.Point{}, draw.Over)` for an RGBA source:
clip `rect` against the destination bounds and the translated source bounds,
then compose pixel by pixel; the source pixel for destination `(x, y)` is
`(x - rect.minX, y - rect.minY)` in the source's coordinate space. -/
def goDrawImageOver (dst : Canvas) (rect : GRect) (src : Canvas) : Canvas :=
  let r0 := rect.intersect dst.bounds
  let r := r0.intersect ⟨src.bounds.minX + rect.minX, src.bounds.minY + rect.minY,
                          src.bounds.maxX + rect.minX, src.bounds.maxY + rect.minY⟩
  (List.range r.dy.toNat).foldl (fun dst (i : ℕ) =>
    let y := r.minY + (i : ℤ)
    (List.range r.dx.toNat).foldl (fun dst (j : ℕ) =>
      let x := r.minX + (j : ℤ)
      let so := src.off (x - rect.minX) (y - rect.minY)
      copyOverBytes dst (dst.off x y) (src.getByte so) (src.getByte (so + 1))
        (src.getByte (so + 2)) (src.getByte (so + 3))) dst) dst

/-- `scaleImageBilinear` (renderer.go:2543-2600), the `*image.RGBA` fast
path (decoded sources are RGBA in this embedding). -/
def scaleImageBilinear (src : Canvas) (dstW dstH : ℤ) : Canvas :=
  if dstW ≤ 0 ∨ dstH ≤ 0 then newRGBA (goRect 0 0 1 1)
  else
    let srcW := src.bounds.dx
    let srcH := src.bounds.dy
    if srcW ≤ 0 ∨ srcH ≤ 0 then newRGBA (goRect 0 0 dstW dstH)
    else
      let xRatio : ℚ := (srcW : ℚ) / (dstW : ℚ)
      let yRatio : ℚ := (srcH : ℚ) / (dstH : ℚ)
      (List.range dstH.toNat).foldl (fun dst (dyn : ℕ) =>
        let dy : ℤ := dyn
        let syq : ℚ := (dy : ℚ) * yRatio
        let sy0 : ℤ := trunc64 syq
        let sy1 : ℤ := if sy0 + 1 ≥ srcH then srcH - 1 else sy0 + 1
        let fy : ℚ := syq - (sy0 : ℚ)
        let ify : ℚ := 1 - fy
        let srcOff0 := sy0 * src.stride
        let srcOff1 := sy1 * src.stride
        (List.range dstW.toNat).foldl (fun dst (dxn : ℕ) =>
          let dx : ℤ := dxn
          let sxq : ℚ := (dx : ℚ) * xRatio
          let sx0 : ℤ := trunc64 sxq
          let sx1 : ℤ := if sx0 + 1 ≥ srcW then srcW - 1 else sx0 + 1
          let fx : ℚ := sxq - (sx0 : ℚ)
          let ifx : ℚ := 1 - fx
          let o00 := srcOff0 + sx0 * 4
          let o10 := srcOff0 + sx1 * 4
          let o01 := srcOff1 + sx0 * 4
          let o11 := srcOff1 + sx1 * 4
          let dstOff := dy * dst.stride + dx * 4
          (List.range 4).foldl (fun dst (ch : ℕ) =>
            let chz : ℤ := ch
            let top : ℚ := (src.getByte (o00 + chz) : ℚ) * ifx +
              (src.getByte (o10 + chz) : ℚ) * fx
            let bot : ℚ := (src.getByte (o01 + chz) : ℚ) * ifx +
              (src.getByte (o11 + chz) : ℚ) * fx
            dst.setByte (dstOff + chz) ((trunc64 (top * ify + bot * fy)).toNat % 256))
            dst) dst) (newRGBA (goRect 0 0 dstW dstH))

/-- The flip step of `renderRotated` (renderer.go:345-368): row/column
reversed copy of the offscreen into a fresh buffer. -/
def flipImage (tmp : Canvas) (w h : ℤ) (fH fV : Bool) : Canvas :=
  let flipped := newRGBA tmp.bounds
  (List.range h.toNat).foldl (fun acc (py : ℕ) =>
    let sy : ℤ := if fV then h - 1 - (py : ℤ) else (py : ℤ)
    let srcRow := sy * tmp.stride
    let dstRow := (py : ℤ) * acc.stride
    if fH then
      (List.range w.toNat).foldl (fun acc (px : ℕ) =>
        let sOff := srcRow + (w - 1 - (px : ℤ)) * 4
        let dOff := dstRow + (px : ℤ) * 4
        (List.range 4).foldl (fun acc (ch : ℕ) =>
          acc.setByte (dOff + (ch : ℤ)) (tmp.getByte (sOff + (ch : ℤ)))) acc) acc
    else
      (List.range (w.toNat * 4)).foldl (fun acc (b : ℕ) =>
        acc.setByte (dstRow + (b : ℤ)) (tmp.getByte (srcRow + (b : ℤ)))) acc) flipped

/-- Modelled from the spec: the font cache (spec §4.8) is an external
capability; its declaration is not under `src/`.  `NewFontCache(dirs...)`
records the extra font directories to search. -/
structure FontCache where
  fontDirs : List String
deriving DecidableEq

/-- `NewFontCache` (declaration not under `src/`): build a cache from the
extra font directories. -/
def NewFontCache (dirs : List String) : FontCache := ⟨dirs⟩

/-- The `renderer` struct (renderer.go:206-212); the pixel buffer plus the
pixel-per-EMU scales, DPI and the font cache handle. -/
structure Renderer where
  img : Canvas
  scaleX : ℚ
  scaleY : ℚ
  dpi : ℚ
  fontCache : FontCache

/-- `renderer.emuToPixelX` (renderer.go:235). -/
def Renderer.emuToPixelX (r : Renderer) (emu : ℤ) : ℤ := trunc64 ((emu : ℚ) * r.scaleX)

/-- `renderer.emuToPixelY` (renderer.go:236). -/
def Renderer.emuToPixelY (r : Renderer) (emu : ℤ) : ℤ := trunc64 ((emu : ℚ) * r.scaleY)

/-- `rotatedBounds` (renderer.go:325-336). -/
def rotatedBounds (env : Env) (cx cy : ℚ) (w h : ℤ) (angleDeg : ℤ) : GRect :=
  let rad : ℚ := (angleDeg : ℚ) * pi64 / 180
  let cos := |env.cosF rad|
  let sin := |env.sinF rad|
  let newW := (w : ℚ) * cos + (h : ℚ) * sin
  let newH := (w : ℚ) * sin + (h : ℚ) * cos
  goRect (trunc64 (cx - newW / 2)) (trunc64 (cy - newH / 2))
    (trunc64 (cx + newW / 2) + 1) (trunc64 (cy + newH / 2) + 1)

/-- `renderer.renderRotated` (renderer.go:337-409): draw the callback into a
transparent `w × h` offscreen, flip if requested, then either alpha-compose
at `(x,y)` when the angle is zero or inverse-rotate by nearest neighbour. -/
def renderRotated (env : Env) (r : Renderer) (x y w h rotation : ℤ)
    (fH fV : Bool) (drawFn : Renderer → Renderer) : Renderer :=
  if w ≤ 0 ∨ h ≤ 0 then r
  else
    let tmpR := drawFn { r with img := newRGBA (goRect 0 0 w h) }
    let tmp := if fH || fV then flipImage tmpR.img w h fH fV else tmpR.img
    if rotation = 0 then
      { r with img := goDrawImageOver r.img (goRect x y (x + w) (y + h)) tmp }
    else
      let rad : ℚ := (rotation : ℚ) * pi64 / 180
      let cosA := env.cosF rad
      let sinA := env.sinF rad
      let cxq : ℚ := (w : ℚ) / 2
      let cyq : ℚ := (h : ℚ) / 2
      let destCX : ℚ := (x : ℚ) + cxq
      let destCY : ℚ := (y : ℚ) + cyq
      let bounds := rotatedBounds env destCX destCY w h rotation
      let ib := r.img.bounds
      let minDY := max bounds.minY ib.minY
      let maxDY := min bounds.maxY ib.maxY
      let minDX := max bounds.minX ib.minX
      let maxDX := min bounds.maxX ib.maxX
      let img := (List.range (maxDY - minDY).toNat).foldl (fun cv (i : ℕ) =>
        let dy := minDY + (i : ℤ)
        let ry : ℚ := (dy : ℚ) - destCY
        (List.range (maxDX - minDX).toNat).foldl (fun cv (j : ℕ) =>
          let dx := minDX + (j : ℤ)
          let rx : ℚ := (dx : ℚ) - destCX
          let sx := rx * cosA + ry * sinA + cxq
          let sy := -rx * sinA + ry * cosA + cyq
          let ix := trunc64 sx
          let iy := trunc64 sy
          if 0 ≤ ix ∧ ix < w ∧ 0 ≤ iy ∧ iy < h then
            let sOff := iy * tmp.stride + ix * 4
            if tmp.getByte (sOff + 3) > 0 then
              blendPixel cv dx dy ⟨tmp.getByte sOff, tmp.getByte (sOff + 1),
                tmp.getByte (sOff + 2), tmp.getByte (sOff + 3)⟩
            else cv
          else cv) cv) r.img
      { r with img := img }

/-! ### Drawing shapes and the slide entry points (renderer.go:62-158,
469-509) -/

/-- `DrawingShape` (declaration not under `src/`; fields per renderer.go's
reads and the spec's shape envelope): a picture with either embedded bytes or
a file path. -/
structure DrawingShape where
  offsetX : ℤ
  offsetY : ℤ
  width : ℤ
  height : ℤ
  rotation : ℤ
  flipH : Bool
  flipV : Bool
  data : List ℕ
  path : String

/-- The image-bytes resolution of `renderDrawing` (renderer.go:475-480):
embedded data, else `os.ReadFile` of the path when the path is set and the
read succeeds. -/
def resolveImageData (env : Env) (s : DrawingShape) : List ℕ :=
  if s.data = [] ∧ s.path ≠ "" then
    match env.readFile s.path with
    | some d => d
    | none => s.data
  else s.data

/-- `renderer.renderDrawing` (renderer.go:469-509).  The Go draw closure
receives the target renderer and draws at `(x,y)` on the canvas itself or at
`(0,0)` in the rotation offscreen; here the origin is an explicit argument. -/
def renderDrawing (env : Env) (r : Renderer) (s : DrawingShape) : Renderer :=
  let x := r.emuToPixelX s.offsetX
  let y := r.emuToPixelY s.offsetY
  let w := r.emuToPixelX s.width
  let h := r.emuToPixelY s.height
  let imgData := resolveImageData env s
  if imgData = [] then r
  else
    match env.decode imgData with
    | none =>
      { r with img := drawRect r.img (goRect x y (x + w) (y + h)) ⟨200, 200, 200, 255⟩ 1 }
    | some srcImg =>
      let drawImg := fun (tr : Renderer) (ox oy : ℤ) =>
        let scaled := scaleImageBilinear srcImg w h
        { tr with img := goDrawImageOver tr.img (goRect ox oy (ox + w) (oy + h)) scaled }
      if s.rotation ≠ 0 ∨ s.flipH ∨ s.flipV then
        renderRotated env r x y w h s.rotation s.flipH s.flipV (fun tmp => drawImg tmp 0 0)
      else drawImg r x y

/-- The shape variants of the embedding.  The source dispatches over eight
variants (renderer.go:214-233); the claims under verification exercise the
`Drawing` variant, so it is the one embedded here. -/
inductive Shape where
  | drawing (d : DrawingShape)

/-- `renderer.renderShape` (renderer.go:214-233) restricted to the embedded
variants. -/
def renderShape (env : Env) (r : Renderer) : Shape → Renderer
  | .drawing d => renderDrawing env r d

/-- `FillType` (reader_slide.go:1284-1291): `FillNone`, `FillSolid`,
`FillGradientLinear`, `FillGradientPath`. -/
inductive FillType where
  | fillNone
  | solid
  | gradientLinear
  | gradientPath
deriving DecidableEq

/-- `Fill` (reader_slide.go:1276-1281): `Type`, `Color`, `EndColor`,
`Rotation`.  Go's `Color` (reader_slide.go:1093-1095) is an ARGB hex string
that every consumer in renderer.go passes through `argbToRGBA`
(renderer.go:238-244); the colour fields here carry the resulting byte
channels directly, so `fill.color` stands for `argbToRGBA(fill.Color)`. -/
structure Fill where
  type : FillType
  color : RGBA
  endColor : RGBA
  rotation : ℤ

/-- `renderer.fillGradientLinear` (renderer.go:683-731).  The incremental
byte offset `off += 4` is written as `cv.off px py`, which it equals. -/
def fillGradientLinear (env : Env) (cv : Canvas) (rect : GRect) (fill : Fill) : Canvas :=
  let startC := fill.color
  let endC := fill.endColor
  let w := rect.dx
  let h := rect.dy
  if w ≤ 0 ∨ h ≤ 0 then cv
  else
    let rad : ℚ := (fill.rotation : ℚ) * pi64 / 180
    let cosA := env.cosF rad
    let sinA := env.sinF rad
    let cx : ℚ := (w : ℚ) / 2
    let cy : ℚ := (h : ℚ) / 2
    let mp := |cx * cosA| + |cy * sinA|
    let maxProj := if mp < 1 then 1 else mp
    let invMaxProj := 1 / (2 * maxProj)
    let b := cv.bounds
    (List.range (rect.maxY - rect.minY).toNat).foldl (fun cv (i : ℕ) =>
      let py := rect.minY + (i : ℤ)
      if py < b.minY ∨ py ≥ b.maxY then cv
      else
        let dyf : ℚ := ((py - rect.minY : ℤ) : ℚ) - cy
        let rowBase := dyf * sinA + maxProj
        let x0 := max rect.minX b.minX
        let x1 := min rect.maxX b.maxX
        (List.range (x1 - x0).toNat).foldl (fun cv (j : ℕ) =>
          let px := x0 + (j : ℤ)
          let o := cv.off px py
          let dxf : ℚ := ((px - rect.minX : ℤ) : ℚ) - cx
          let t0 := (dxf * cosA + rowBase) * invMaxProj
          let t := if t0 < 0 then 0 else if t0 > 1 then 1 else t0
          let it := 1 - t
          setBytes4 cv o ((trunc64 ((startC.r : ℚ) * it + (endC.r : ℚ) * t)).toNat % 256)
            ((trunc64 ((startC.g : ℚ) * it + (endC.g : ℚ) * t)).toNat % 256)
            ((trunc64 ((startC.b : ℚ) * it + (endC.b : ℚ) * t)).toNat % 256)
            ((trunc64 ((startC.a : ℚ) * it + (endC.a : ℚ) * t)).toNat % 256)) cv) cv

/-- `renderer.fillGradientPath` (renderer.go:732-785): radial gradient from
the rectangle centre. -/
def fillGradientPath (env : Env) (cv : Canvas) (rect : GRect) (fill : Fill) : Canvas :=
  let startC := fill.color
  let endC := fill.endColor
  let w := rect.dx
  let h := rect.dy
  if w ≤ 0 ∨ h ≤ 0 then cv
  else
    let cx : ℚ := (w : ℚ) / 2
    let cy : ℚ := (h : ℚ) / 2
    let md := env.sqrtF (cx * cx + cy * cy)
    let maxDist := if md < 1 then 1 else md
    let invMaxDist := 1 / maxDist
    let b := cv.bounds
    (List.range (rect.maxY - rect.minY).toNat).foldl (fun cv (i : ℕ) =>
      let py := rect.minY + (i : ℤ)
      if py < b.minY ∨ py ≥ b.maxY then cv
      else
        let dyf : ℚ := ((py - rect.minY : ℤ) : ℚ) - cy
        let dy2 := dyf * dyf
        let x0 := max rect.minX b.minX
        let x1 := min rect.maxX b.maxX
        (List.range (x1 - x0).toNat).foldl (fun cv (j : ℕ) =>
          let px := x0 + (j : ℤ)
          let o := cv.off px py
          let dxf : ℚ := ((px - rect.minX : ℤ) : ℚ) - cx
          let t0 := env.sqrtF (dxf * dxf + dy2) * invMaxDist
          let t := if t0 > 1 then 1 else t0
          let it := 1 - t
          setBytes4 cv o ((trunc64 ((startC.r : ℚ) * it + (endC.r : ℚ) * t)).toNat % 256)
            ((trunc64 ((startC.g : ℚ) * it + (endC.g : ℚ) * t)).toNat % 256)
            ((trunc64 ((startC.b : ℚ) * it + (endC.b : ℚ) * t)).toNat % 256)
            ((trunc64 ((startC.a : ℚ) * it + (endC.a : ℚ) * t)).toNat % 256)) cv) cv

/-- `Slide` (slide.go:36-45), restricted to the fields the renderer reads. -/
structure Slide where
  shapes : List Shape
  background : Option Fill

/-- The presentation layout's slide size in EMU (declaration not under
`src/`; `p.layout.CX`, `p.layout.CY` are positive by model invariant). -/
structure DesignLayout where
  cx : ℤ
  cy : ℤ

/-- `Presentation` (declaration not under `src/`), restricted to the fields
`SlideToImage` reads. -/
structure Presentation where
  slides : List Slide
  layout : DesignLayout

/-- `ImageFormat` (renderer.go:24-29). -/
inductive ImageFormat where
  | png
  | jpeg
deriving DecidableEq

/-- `RenderOptions` (renderer.go:31-50). -/
structure RenderOptions where
  width : ℤ
  format : ImageFormat
  jpegQuality : ℤ
  backgroundColor : Option RGBA
  dpi : ℚ
  fontDirs : List String
  fontCache : Option FontCache

/-- `DefaultRenderOptions` (renderer.go:53-60). -/
def DefaultRenderOptions : RenderOptions :=
  { width := 960, format := .png, jpegQuality := 90, backgroundColor := none,
    dpi := 96, fontDirs := [], fontCache := none }

/-- The background fill and shape walk of `SlideToImage`
(renderer.go:102-124): paint the background (an explicit override colour, the
slide's solid or gradient background, or white), then render every shape in
slide order. -/
def renderSlideBody (env : Env) (opts : RenderOptions) (slide : Slide)
    (r : Renderer) : Renderer :=
  let white : RGBA := ⟨255, 255, 255, 255⟩
  let bg : RGBA × Bool × Renderer :=
    match opts.backgroundColor with
    | some c => (c, false, r)
    | none =>
      match slide.background with
      | some f =>
        match f.type with
        | .solid => (f.color, false, r)
        | .gradientLinear =>
          (white, true, { r with img := fillGradientLinear env r.img r.img.bounds f })
        | .gradientPath =>
          (white, true, { r with img := fillGradientPath env r.img r.img.bounds f })
        | .fillNone => (white, false, r)
      | none => (white, false, r)
  let r := bg.2.2
  let r := if bg.2.1 then r else { r with img := fillRectFast r.img r.img.bounds bg.1 }
  slide.shapes.foldl (renderShape env) r

/-- `Presentation.SlideToImage` (renderer.go:63-126).  Go mutates the
caller's `*RenderOptions`; the second component of the result is the
caller's options object after the call (`none` when the caller passed nil, in
which case a private default is used). -/
def SlideToImage (env : Env) (p : Presentation) (slideIndex : ℤ)
    (optsIn : Option RenderOptions) : Except String Canvas × Option RenderOptions :=
  if slideIndex < 0 ∨ slideIndex ≥ (p.slides.length : ℤ) then
    (.error ("slide index " ++ toString slideIndex ++ " out of range (0-" ++
      toString ((p.slides.length : ℤ) - 1) ++ ")"), optsIn)
  else
    let opts0 := optsIn.getD DefaultRenderOptions
    let opts := if opts0.width ≤ 0 then { opts0 with width := 960 } else opts0
    let slide := p.slides.getD slideIndex.toNat ⟨[], none⟩
    let slideW : ℚ := (p.layout.cx : ℚ)
    let slideH : ℚ := (p.layout.cy : ℚ)
    let imgW := opts.width
    let imgH := trunc64 ((imgW : ℚ) * slideH / slideW)
    let scaleX := (imgW : ℚ) / slideW
    let scaleY := (imgH : ℚ) / slideH
    let img := newRGBA (goRect 0 0 imgW imgH)
    let fc := opts.fontCache.getD (NewFontCache opts.fontDirs)
    let dpi := if opts.dpi ≤ 0 then 96 else opts.dpi
    let r : Renderer := ⟨img, scaleX, scaleY, dpi, fc⟩
    let r := renderSlideBody env opts slide r
    (.ok r.img, optsIn.map fun _ => opts)

/-- The slide loop of `SlidesToImages` (renderer.go:140-146), threading the
shared options object through each call. -/
def slidesLoop (env : Env) (p : Presentation) :
    ℕ → ℕ → RenderOptions → List Canvas → Except String (List Canvas) × RenderOptions
  | _, 0, opts, acc => (.ok acc.reverse, opts)
  | i, rem + 1, opts, acc =>
    match SlideToImage env p (i : ℤ) (some opts) with
    | (.ok img, st) => slidesLoop env p (i + 1) rem (st.getD opts) (img :: acc)
    | (.error e, st) =>
      (.error ("slide " ++ toString i ++ ": " ++ e), st.getD opts)

/-- `Presentation.SlidesToImages` (renderer.go:129-148): installs a fresh
font cache into the caller's options when none is set, then renders every
slide with the shared options object. -/
def SlidesToImages (env : Env) (p : Presentation) (optsIn : Option RenderOptions) :
    Except String (List Canvas) × Option RenderOptions :=
  let opts0 := optsIn.getD DefaultRenderOptions
  let opts := if opts0.fontCache.isNone then
    { opts0 with fontCache := some (NewFontCache opts0.fontDirs) } else opts0
  let res := slidesLoop env p 0 p.slides.length opts []
  (res.1, optsIn.map fun _ => res.2)

/-! ### Verification infrastructure -/

/-- Two canvases agree on bounds, stride and buffer length: every pixel
operation of the renderer preserves this, which is what makes the output
image's geometry depend only on its allocation. -/
def SameShape (cv cv' : Canvas) : Prop :=
  cv'.bounds = cv.bounds ∧ cv'.stride = cv.stride ∧ cv'.pix.size = cv.pix.size

/-- The bar chart's value stream in scan order: for each series, the values
looked up for its categories (renderer.go:2027-2034). -/
def barVals (series : List ChartSeries) : List ℚ :=
  series.flatMap fun s => s.categories.map (mapLookup s.values)

/-- The line/area/scatter charts' value stream in scan order: for each
series, its raw map values (renderer.go:2083-2085 etc.). -/
def lineVals (series : List ChartSeries) : List ℚ :=
  series.flatMap fun s => s.values.map Prod.snd

/-- The spec's wording of the value-range clamps: "if `min > 0`, force
`min = 0`; if `max ≤ min`, force `max = min + 1`" (sequentially, the second
clamp reading the already-clamped min). -/
def specAxisRange (m M : ℚ) : ℚ × ℚ :=
  (if 0 < m then 0 else m,
   if M ≤ (if 0 < m then 0 else m) then (if 0 < m then 0 else m) + 1 else M)

/-- The effective options of a `SlideToImage` call: the caller's options (or
the default when nil) with a non-positive width coerced to 960
(renderer.go:67-72). -/
def effOpts (optsIn : Option RenderOptions) : RenderOptions :=
  let opts0 := optsIn.getD DefaultRenderOptions
  if opts0.width ≤ 0 then { opts0 with width := 960 } else opts0

/-- The effective output width of a `SlideToImage` call. -/
def effWidth (optsIn : Option RenderOptions) : ℤ := (effOpts optsIn).width

/-- The output height `SlideToImage` computes:
`int(float64(imgW) * slideH / slideW)` (renderer.go:79). -/
def effHeight (p : Presentation) (optsIn : Option RenderOptions) : ℤ :=
  trunc64 ((effWidth optsIn : ℚ) * (p.layout.cy : ℚ) / (p.layout.cx : ℚ))

/-- A concrete environment for witnesses: decode always fails, no file
system, all transcendentals zero (cos ≡ 1). -/
def envW : Env := ⟨fun _ => none, fun _ => none, fun _ _ => 0, fun _ => 1, fun _ => 0, fun _ => 0⟩

/-- A concrete renderer over an 8×8 canvas for witnesses. -/
def rW : Renderer := ⟨newRGBA (goRect 0 0 8 8), 1, 1, 96, ⟨[]⟩⟩

/-- A drawing shape with undecodable embedded bytes. -/
def dshW : DrawingShape := ⟨1, 1, 3, 3, 0, false, false, [9], ""⟩

/-- A drawing shape with no embedded bytes and an unreadable path. -/
def dshEmptyW : DrawingShape := ⟨1, 1, 3, 3, 0, false, false, [], "nofile"⟩

/-- A one-slide presentation with a tiny 3×2-EMU layout for witnesses. -/
def presW : Presentation := ⟨[⟨[], none⟩], ⟨3, 2⟩⟩

/-- Options requesting width 4. -/
def opts4 : RenderOptions := { DefaultRenderOptions with width := 4 }

/-- Options requesting the non-positive width 0. -/
def opts0W : RenderOptions := { DefaultRenderOptions with width := 0 }

theorem arr_getD_eq (a : Array ℕ) (i : ℕ) : a.getD i 0 = (a[i]?).getD 0 := by
  unfold Array.getD
  rw [Array.getD_get?]
  rfl

theorem getD_set_ne (a : Array ℕ) (i : Fin a.size) (v : ℕ) (j : ℕ)
    (hne : (i : ℕ) ≠ j) : (a.set i v).getD j 0 = a.getD j 0 := by
  rw [arr_getD_eq, arr_getD_eq, Array.get?_set]
  simp [hne]

theorem getD_set_eq (a : Array ℕ) (i : Fin a.size) (v : ℕ) :
    (a.set i v).getD i 0 = v := by
  rw [arr_getD_eq, Array.get?_set]
  simp [i.isLt]

theorem getByte_setByte_ne (cv : Canvas) (i : ℤ) (v : ℕ) (j : ℤ) (hne : i ≠ j) :
    (cv.setByte i v).getByte j = cv.getByte j := by
  unfold Canvas.setByte Canvas.getByte
  by_cases hj : 0 ≤ j
  · rw [if_pos hj, if_pos hj]
    by_cases h : 0 ≤ i ∧ i.toNat < cv.pix.size
    · rw [dif_pos h]
      show (cv.pix.set ⟨i.toNat, h.2⟩ v).getD j.toNat 0 = _
      exact getD_set_ne cv.pix ⟨i.toNat, h.2⟩ v j.toNat (show i.toNat ≠ j.toNat by omega)
    · rw [dif_neg h]
  · rw [if_neg hj, if_neg hj]

theorem getByte_setByte_eq (cv : Canvas) (i : ℤ) (v : ℕ) (h0 : 0 ≤ i)
    (hlt : i.toNat < cv.pix.size) : (cv.setByte i v).getByte i = v := by
  unfold Canvas.setByte Canvas.getByte
  rw [dif_pos ⟨h0, hlt⟩, if_pos h0]
  exact getD_set_eq _ ⟨i.toNat, hlt⟩ v

theorem sameShape_refl (cv : Canvas) : SameShape cv cv := ⟨rfl, rfl, rfl⟩

theorem sameShape_ite (cv : Canvas) (p : Prop) [Decidable p] (a b : Canvas)
    (ha : SameShape cv a) (hb : SameShape cv b) : SameShape cv (if p then a else b) := by
  split <;> assumption

theorem sameShape_trans {a b c : Canvas} (h1 : SameShape a b) (h2 : SameShape b c) :
    SameShape a c :=
  ⟨h2.1.trans h1.1, h2.2.1.trans h1.2.1, h2.2.2.trans h1.2.2⟩

theorem sameShape_setByte (cv : Canvas) (i : ℤ) (v : ℕ) :
    SameShape cv (cv.setByte i v) := by
  unfold Canvas.setByte
  split
  · exact ⟨rfl, rfl, Array.size_set _ _ _⟩
  · exact sameShape_refl cv

theorem sameShape_setBytes4 (cv : Canvas) (o : ℤ) (v0 v1 v2 v3 : ℕ) :
    SameShape cv (setBytes4 cv o v0 v1 v2 v3) :=
  sameShape_trans (sameShape_trans (sameShape_trans (sameShape_setByte ..)
    (sameShape_setByte ..)) (sameShape_setByte ..)) (sameShape_setByte ..)

theorem sameShape_blendBytesAt (cv : Canvas) (o : ℤ) (cr cg cb a : ℕ) :
    SameShape cv (blendBytesAt cv o cr cg cb a) :=
  sameShape_setBytes4 ..

theorem sameShape_blendPixel (cv : Canvas) (x y : ℤ) (c : RGBA) :
    SameShape cv (blendPixel cv x y c) := by
  unfold blendPixel
  dsimp only
  split
  · exact sameShape_refl cv
  split
  · exact sameShape_refl cv
  split
  · exact sameShape_setBytes4 ..
  · exact sameShape_blendBytesAt ..

theorem sameShape_blendPixelF (cv : Canvas) (x y : ℤ) (c : RGBA) (cov : ℚ) :
    SameShape cv (blendPixelF cv x y c cov) := by
  unfold blendPixelF
  split
  · exact sameShape_refl cv
  · split
    · exact sameShape_blendPixel ..
    · exact sameShape_blendPixel ..

theorem sameShape_foldl {α : Type} {f : Canvas → α → Canvas}
    (h : ∀ cv a, SameShape cv (f cv a)) (l : List α) (cv : Canvas) :
    SameShape cv (l.foldl f cv) := by
  induction l generalizing cv with
  | nil => exact sameShape_refl _
  | cons a l ih => exact sameShape_trans (h cv a) (ih _)

theorem sameShape_fillOverRow (sr sg sb sa a : ℕ) :
    ∀ (n : ℕ) (cv : Canvas) (o : ℤ), SameShape cv (fillOverRow cv o sr sg sb sa a n) := by
  intro n
  induction n with
  | zero => exact fun cv o => sameShape_refl _
  | succ n ih =>
    intro cv o
    exact sameShape_trans (sameShape_setBytes4 ..) (ih _ _)

theorem sameShape_fillOverRows (w : ℕ) (stride : ℤ) (sr sg sb sa a : ℕ) :
    ∀ (n : ℕ) (cv : Canvas) (o : ℤ),
      SameShape cv (fillOverRows cv o w stride sr sg sb sa a n) := by
  intro n
  induction n with
  | zero => exact fun cv o => sameShape_refl _
  | succ n ih =>
    intro cv o
    exact sameShape_trans (sameShape_fillOverRow ..) (ih _ _)

theorem sameShape_fillRectFast (cv : Canvas) (rect : GRect) (c : RGBA) :
    SameShape cv (fillRectFast cv rect c) :=
  sameShape_fillOverRows ..

theorem sameShape_blendRow (cr cg cb a : ℕ) :
    ∀ (n : ℕ) (cv : Canvas) (o : ℤ), SameShape cv (blendRow cv o cr cg cb a n) := by
  intro n
  induction n with
  | zero => exact fun cv o => sameShape_refl _
  | succ n ih =>
    intro cv o
    exact sameShape_trans (sameShape_blendBytesAt ..) (ih _ _)

theorem sameShape_blendRows (w : ℕ) (stride : ℤ) (cr cg cb a : ℕ) :
    ∀ (n : ℕ) (cv : Canvas) (o : ℤ),
      SameShape cv (blendRows cv o w stride cr cg cb a n) := by
  intro n
  induction n with
  | zero => exact fun cv o => sameShape_refl _
  | succ n ih =>
    intro cv o
    exact sameShape_trans (sameShape_blendRow ..) (ih _ _)

theorem sameShape_fillRectBlend (cv : Canvas) (rect : GRect) (c : RGBA) :
    SameShape cv (fillRectBlend cv rect c) := by
  unfold fillRectBlend
  dsimp only
  split
  · exact sameShape_refl _
  split
  · exact sameShape_refl _
  split
  · exact sameShape_fillRectFast ..
  · exact sameShape_blendRows ..

theorem sameShape_drawRect (cv : Canvas) (rect : GRect) (c : RGBA) (width : ℕ) :
    SameShape cv (drawRect cv rect c width) := by
  unfold drawRect
  refine sameShape_foldl (fun cv i => ?_) _ _
  exact sameShape_trans (sameShape_trans (sameShape_fillRectBlend ..)
    (sameShape_fillRectBlend ..))
    (sameShape_foldl (fun cv j => sameShape_trans (sameShape_blendPixel ..)
      (sameShape_blendPixel ..)) _ _)

theorem sameShape_fillPairs (y : ℤ) (c : RGBA) :
    ∀ (xs : List ℚ) (cv : Canvas), SameShape cv (fillPairs cv y c xs)
  | x1 :: x2 :: rest, cv => by
    unfold fillPairs
    dsimp only
    refine sameShape_trans ?_ (sameShape_fillPairs y c rest _)
    split
    · split
      · exact sameShape_fillRectFast ..
      · exact sameShape_fillRectBlend ..
    · exact sameShape_refl _
  | [], cv => sameShape_refl _
  | [x], cv => sameShape_refl _

theorem sameShape_fillPolygon (cv : Canvas) (pts : List FPoint) (c : RGBA) :
    SameShape cv (fillPolygon cv pts c) := by
  unfold fillPolygon
  split
  · exact sameShape_foldl (fun cv k => sameShape_fillPairs ..) _ _
  · exact sameShape_refl _

theorem sameShape_copyOverBytes (dst : Canvas) (o : ℤ) (s0 s1 s2 s3 : ℕ) :
    SameShape dst (copyOverBytes dst o s0 s1 s2 s3) :=
  sameShape_setBytes4 ..

theorem sameShape_goDrawImageOver (dst : Canvas) (rect : GRect) (src : Canvas) :
    SameShape dst (goDrawImageOver dst rect src) := by
  unfold goDrawImageOver
  exact sameShape_foldl (fun cv i =>
    sameShape_foldl (fun cv j => sameShape_copyOverBytes ..) _ _) _ _

theorem sameShape_fillGradientLinear (env : Env) (cv : Canvas) (rect : GRect)
    (fill : Fill) : SameShape cv (fillGradientLinear env cv rect fill) := by
  unfold fillGradientLinear
  dsimp only
  split
  · exact sameShape_refl _
  · refine sameShape_foldl (fun cv i => ?_) _ _
    split
    · exact sameShape_refl _
    · exact sameShape_foldl (fun cv j => sameShape_setBytes4 ..) _ _

theorem sameShape_fillGradientPath (env : Env) (cv : Canvas) (rect : GRect)
    (fill : Fill) : SameShape cv (fillGradientPath env cv rect fill) := by
  unfold fillGradientPath
  dsimp only
  split
  · exact sameShape_refl _
  · refine sameShape_foldl (fun cv i => ?_) _ _
    split
    · exact sameShape_refl _
    · exact sameShape_foldl (fun cv j => sameShape_setBytes4 ..) _ _

theorem sameShape_bresenham (x2 y2 dx dy sx sy : ℤ) (c : RGBA) :
    ∀ (fuel : ℕ) (cv : Canvas) (x1 y1 err : ℤ),
      SameShape cv (bresenham cv x1 y1 x2 y2 dx dy sx sy err c fuel) := by
  intro fuel
  induction fuel with
  | zero => exact fun cv x1 y1 err => sameShape_refl _
  | succ n ih =>
    intro cv x1 y1 err
    unfold bresenham
    split
    · exact sameShape_blendPixel ..
    · exact sameShape_trans (sameShape_blendPixel ..) (ih ..)

theorem sameShape_drawLine (cv : Canvas) (x1 y1 x2 y2 : ℤ) (c : RGBA) :
    SameShape cv (drawLine cv x1 y1 x2 y2 c) :=
  sameShape_bresenham ..

theorem sameShape_fillPieSlice (env : Env) (cv : Canvas) (cx cy radius : ℤ)
    (sa ea : ℚ) (c : RGBA) : SameShape cv (fillPieSlice env cv cx cy radius sa ea c) := by
  unfold fillPieSlice
  refine sameShape_foldl (fun cv i => ?_) _ _
  dsimp only
  refine sameShape_ite _ _ _ _ (sameShape_refl _) ?_
  refine sameShape_foldl (fun cv j => ?_) _ _
  exact sameShape_ite _ _ _ _ (sameShape_blendPixel ..) (sameShape_refl _)

theorem sameShape_renderRotated_img (env : Env) (r : Renderer)
    (x y w h rotation : ℤ) (fH fV : Bool) (drawFn : Renderer → Renderer) :
    SameShape r.img (renderRotated env r x y w h rotation fH fV drawFn).img := by
  unfold renderRotated
  split
  · exact sameShape_refl _
  · dsimp only
    split
    · dsimp only
      exact sameShape_goDrawImageOver ..
    · dsimp only
      refine sameShape_foldl (fun cv i => ?_) _ _
      dsimp only
      refine sameShape_foldl (fun cv j => ?_) _ _
      dsimp only
      refine sameShape_ite _ _ _ _ ?_ (sameShape_refl _)
      refine sameShape_ite _ _ _ _ ?_ (sameShape_refl _)
      exact sameShape_blendPixel ..

theorem sameShape_renderDrawing_img (env : Env) (r : Renderer) (s : DrawingShape) :
    SameShape r.img (renderDrawing env r s).img := by
  unfold renderDrawing
  dsimp only
  by_cases hd : resolveImageData env s = []
  · rw [if_pos hd]
    exact sameShape_refl _
  · rw [if_neg hd]
    cases hdec : env.decode (resolveImageData env s) with
    | none =>
      exact sameShape_drawRect ..
    | some srcImg =>
      dsimp only
      split
      · exact sameShape_renderRotated_img ..
      · dsimp only
        exact sameShape_goDrawImageOver ..

theorem sameShape_renderShape_img (env : Env) (r : Renderer) (sh : Shape) :
    SameShape r.img (renderShape env r sh).img := by
  cases sh with
  | drawing d => exact sameShape_renderDrawing_img ..

theorem sameShape_renderShapes_img (env : Env) (shapes : List Shape) :
    ∀ r : Renderer, SameShape r.img (shapes.foldl (renderShape env) r).img := by
  induction shapes with
  | nil => exact fun r => sameShape_refl _
  | cons s l ih =>
    intro r
    exact sameShape_trans (sameShape_renderShape_img ..) (ih _)

theorem off_congr {cv cv' : Canvas} (h : SameShape cv cv') (x y : ℤ) :
    cv'.off x y = cv.off x y := by
  unfold Canvas.off
  rw [h.1, h.2.1]

theorem getByte_lt (cv : Canvas) (hwf : cv.WF) (i : ℤ) : cv.getByte i < 256 := by
  unfold Canvas.getByte
  split
  · exact hwf.2.2 _
  · omega

theorem off_range (cv : Canvas) (hwf : cv.WF) {x y : ℤ} (hin : cv.inBounds x y) :
    0 ≤ cv.off x y ∧ (cv.off x y).toNat + 3 < cv.pix.size := by
  obtain ⟨hs, hsize, -⟩ := hwf
  obtain ⟨h1, h2, h3, h4⟩ := hin
  unfold Canvas.off
  simp only [GRect.dx] at hs
  simp only [GRect.dy] at hsize
  set a := y - cv.bounds.minY with ha
  set b := x - cv.bounds.minX with hb
  have ha0 : 0 ≤ a := by omega
  have hb0 : 0 ≤ b := by omega
  have hay : a ≤ (cv.bounds.maxY - cv.bounds.minY) - 1 := by omega
  have hbx : b ≤ (cv.bounds.maxX - cv.bounds.minX) - 1 := by omega
  set dx := cv.bounds.maxX - cv.bounds.minX with hdx
  set dy := cv.bounds.maxY - cv.bounds.minY with hdy
  have hdx0 : 0 < dx := by omega
  have hoff0 : 0 ≤ a * cv.stride + b * 4 := by
    rw [hs]
    have : 0 ≤ a * (4 * dx) := mul_nonneg ha0 (by omega)
    omega
  constructor
  · exact hoff0
  · have hkey : a * cv.stride + b * 4 + 3 < cv.stride * dy := by
      rw [hs]
      have h5 : a * (4 * dx) ≤ (dy - 1) * (4 * dx) :=
        mul_le_mul_of_nonneg_right hay (by omega)
      nlinarith
    omega

theorem setBytes4_getBytes (cv : Canvas) (o : ℤ) (v0 v1 v2 v3 : ℕ)
    (h0 : 0 ≤ o) (h3 : o.toNat + 3 < cv.pix.size) :
    (setBytes4 cv o v0 v1 v2 v3).getByte o = v0 ∧
    (setBytes4 cv o v0 v1 v2 v3).getByte (o + 1) = v1 ∧
    (setBytes4 cv o v0 v1 v2 v3).getByte (o + 2) = v2 ∧
    (setBytes4 cv o v0 v1 v2 v3).getByte (o + 3) = v3 := by
  have s1 := (sameShape_setByte cv o v0).2.2
  have s2 := (sameShape_setByte (cv.setByte o v0) (o + 1) v1).2.2
  have s3 := (sameShape_setByte ((cv.setByte o v0).setByte (o + 1) v1) (o + 2) v2).2.2
  unfold setBytes4
  refine ⟨?_, ?_, ?_, ?_⟩
  · rw [getByte_setByte_ne _ _ _ _ (by omega), getByte_setByte_ne _ _ _ _ (by omega),
      getByte_setByte_ne _ _ _ _ (by omega)]
    exact getByte_setByte_eq _ _ _ h0 (by omega)
  · rw [getByte_setByte_ne _ _ _ _ (by omega), getByte_setByte_ne _ _ _ _ (by omega)]
    refine getByte_setByte_eq _ _ _ (by omega) ?_
    rw [s1]
    omega
  · rw [getByte_setByte_ne _ _ _ _ (by omega)]
    refine getByte_setByte_eq _ _ _ (by omega) ?_
    rw [s2, s1]
    omega
  · refine getByte_setByte_eq _ _ _ (by omega) ?_
    rw [s3, s2, s1]
    omega

theorem blend_channel_lt (s p a : ℕ) (hs : s < 256) (hp : p < 256) (ha : a < 256) :
    (s * a + p * (255 - a)) / 255 < 256 := by
  have h1 : s * a ≤ 255 * a := Nat.mul_le_mul_right _ (by omega)
  have h2 : p * (255 - a) ≤ 255 * (255 - a) := Nat.mul_le_mul_right _ (by omega)
  have hx : s * a + p * (255 - a) ≤ 255 * 255 := by omega
  have := Nat.div_le_div_right (c := 255) hx
  omega

theorem blend_alpha_lt (p a : ℕ) (hp : p < 256) (ha : a < 256) :
    p + (255 - p) * a / 255 < 256 := by
  have h1 : (255 - p) * a ≤ (255 - p) * 255 := Nat.mul_le_mul_left _ (by omega)
  have h2 := Nat.div_le_div_right (c := 255) h1
  have h3 : (255 - p) * 255 / 255 = 255 - p := Nat.mul_div_cancel _ (by omega)
  omega

theorem newRGBA_WF (r : GRect) (h1 : 0 ≤ r.dx) (h2 : 0 ≤ r.dy) : (newRGBA r).WF := by
  refine ⟨rfl, ?_, ?_⟩
  · show ((Array.mkArray (4 * r.dx * r.dy).toNat 0).size : ℤ) = 4 * r.dx * r.dy
    rw [Array.size_mkArray]
    exact Int.toNat_of_nonneg (by positivity)
  · intro i
    show (Array.mkArray (4 * r.dx * r.dy).toNat 0).getD i 0 < 256
    unfold Array.getD
    split
    · next h =>
      have := Array.getElem_mkArray (n := (4 * r.dx * r.dy).toNat) (v := (0 : ℕ)) (h := h)
      simp [Array.get_eq_getElem, this]
    · omega

/-- C2 — `blendPixel` at an in-bounds pixel: skip on `A = 0`, direct write of
`(R, G, B, 255)` on `A = 255`, else per-channel
`(src*a + dst*(255-a))/255` and alpha `dst_a + (255-dst_a)*a/255`. -/
theorem C2_blendPixel_cases (cv : Canvas) (x y : ℤ) (c : RGBA) (hwf : cv.WF)
    (hin : cv.inBounds x y) (hc : c.WF) :
    (c.a = 0 → blendPixel cv x y c = cv) ∧
    (c.a = 255 → (blendPixel cv x y c).getPixel x y = ⟨c.r, c.g, c.b, 255⟩) ∧
    (c.a ≠ 0 → c.a ≠ 255 → (blendPixel cv x y c).getPixel x y =
      ⟨(c.r * c.a + (cv.getPixel x y).r * (255 - c.a)) / 255,
       (c.g * c.a + (cv.getPixel x y).g * (255 - c.a)) / 255,
       (c.b * c.a + (cv.getPixel x y).b * (255 - c.a)) / 255,
       (cv.getPixel x y).a + (255 - (cv.getPixel x y).a) * c.a / 255⟩) := by
  have hnb : ¬(x < cv.bounds.minX ∨ x ≥ cv.bounds.maxX ∨ y < cv.bounds.minY ∨
      y ≥ cv.bounds.maxY) := by
    obtain ⟨h1, h2, h3, h4⟩ := hin
    push_neg
    exact ⟨h1, h2, h3, h4⟩
  obtain ⟨hoff0, hoff3⟩ := off_range cv hwf hin
  refine ⟨?_, ?_, ?_⟩
  · intro ha
    unfold blendPixel
    dsimp only
    rw [if_neg hnb, if_pos ha]
  · intro ha
    unfold blendPixel
    dsimp only
    rw [if_neg hnb, if_neg (by omega), if_pos ha]
    obtain ⟨g0, g1, g2, g3⟩ := setBytes4_getBytes cv (cv.off x y) c.r c.g c.b 255 hoff0 hoff3
    have hsh := sameShape_setBytes4 cv (cv.off x y) c.r c.g c.b 255
    unfold Canvas.getPixel
    dsimp only
    rw [off_congr hsh, g0, g1, g2, g3]
  · intro ha0 ha255
    unfold blendPixel
    dsimp only
    rw [if_neg hnb, if_neg ha0, if_neg ha255]
    unfold blendBytesAt
    dsimp only
    obtain ⟨g0, g1, g2, g3⟩ := setBytes4_getBytes cv (cv.off x y) _ _ _ _ hoff0 hoff3
    have hsh := sameShape_setBytes4 cv (cv.off x y)
      ((c.r * c.a + cv.getByte (cv.off x y) * (255 - c.a)) / 255 % 256)
      ((c.g * c.a + cv.getByte (cv.off x y + 1) * (255 - c.a)) / 255 % 256)
      ((c.b * c.a + cv.getByte (cv.off x y + 2) * (255 - c.a)) / 255 % 256)
      ((cv.getByte (cv.off x y + 3) + (255 - cv.getByte (cv.off x y + 3)) * c.a / 255) % 256)
    unfold Canvas.getPixel
    dsimp only
    rw [off_congr hsh, g0, g1, g2, g3]
    have m0 := Nat.mod_eq_of_lt (blend_channel_lt c.r (cv.getByte (cv.off x y)) c.a
      hc.1 (getByte_lt cv hwf _) hc.2.2.2)
    have m1 := Nat.mod_eq_of_lt (blend_channel_lt c.g (cv.getByte (cv.off x y + 1)) c.a
      hc.2.1 (getByte_lt cv hwf _) hc.2.2.2)
    have m2 := Nat.mod_eq_of_lt (blend_channel_lt c.b (cv.getByte (cv.off x y + 2)) c.a
      hc.2.2.1 (getByte_lt cv hwf _) hc.2.2.2)
    have m3 := Nat.mod_eq_of_lt (blend_alpha_lt (cv.getByte (cv.off x y + 3)) c.a
      (getByte_lt cv hwf _) hc.2.2.2)
    rw [m0, m1, m2, m3]

/-- C2 witness: the theorem applied at a concrete 2×1 canvas. -/
theorem C2_blendPixel_cases_witness :
    (newRGBA (goRect 0 0 2 1)).WF ∧ (newRGBA (goRect 0 0 2 1)).inBounds 1 0 ∧
    (RGBA.mk 10 20 30 128).WF ∧
    ((128 ≠ 0 → 128 ≠ 255 →
      (blendPixel (newRGBA (goRect 0 0 2 1)) 1 0 ⟨10, 20, 30, 128⟩).getPixel 1 0 =
        ⟨(10 * 128 + ((newRGBA (goRect 0 0 2 1)).getPixel 1 0).r * (255 - 128)) / 255,
         (20 * 128 + ((newRGBA (goRect 0 0 2 1)).getPixel 1 0).g * (255 - 128)) / 255,
         (30 * 128 + ((newRGBA (goRect 0 0 2 1)).getPixel 1 0).b * (255 - 128)) / 255,
         ((newRGBA (goRect 0 0 2 1)).getPixel 1 0).a +
           (255 - ((newRGBA (goRect 0 0 2 1)).getPixel 1 0).a) * 128 / 255⟩)) := by
  refine ⟨?wf, ?inb, ?cwf, ?main⟩
  case wf => exact newRGBA_WF _ (by decide) (by decide)
  case inb => exact ⟨by decide, by decide, by decide, by decide⟩
  case cwf => exact ⟨by decide, by decide, by decide, by decide⟩
  case main =>
    exact (C2_blendPixel_cases (newRGBA (goRect 0 0 2 1)) 1 0 ⟨10, 20, 30, 128⟩
      (newRGBA_WF _ (by decide) (by decide))
      ⟨by decide, by decide, by decide, by decide⟩
      ⟨by decide, by decide, by decide, by decide⟩).2.2

theorem mem_intersect (r s : GRect) (x y : ℤ) :
    (r.intersect s).mem x y ↔ r.mem x y ∧ s.mem x y := by
  unfold GRect.intersect GRect.mem GRect.isEmpty
  dsimp only
  split
  · next h =>
    simp only [decide_eq_true_eq, Bool.or_eq_true] at h
    dsimp only
    omega
  · next h =>
    simp only [decide_eq_true_eq, Bool.or_eq_true] at h
    dsimp only
    omega

theorem off_step (cv : Canvas) (x y : ℤ) (k m : ℤ) :
    cv.off (x + k) (y + m) = cv.off x y + m * cv.stride + 4 * k := by
  unfold Canvas.off
  ring

theorem setBytes4_outside (cv : Canvas) (o : ℤ) (v0 v1 v2 v3 : ℕ) (j : ℤ)
    (h : ∀ ch : ℕ, ch < 4 → j ≠ o + ch) :
    (setBytes4 cv o v0 v1 v2 v3).getByte j = cv.getByte j := by
  have h0 := h 0 (by norm_num)
  have h1 := h 1 (by norm_num)
  have h2 := h 2 (by norm_num)
  have h3 := h 3 (by norm_num)
  push_cast at h0 h1 h2 h3
  unfold setBytes4
  rw [getByte_setByte_ne _ _ _ _ (by omega), getByte_setByte_ne _ _ _ _ (by omega),
    getByte_setByte_ne _ _ _ _ (by omega), getByte_setByte_ne _ _ _ _ (by omega)]

theorem blendBytesAt_outside (cv : Canvas) (o : ℤ) (cr cg cb a : ℕ) (j : ℤ)
    (h : ∀ ch : ℕ, ch < 4 → j ≠ o + ch) :
    (blendBytesAt cv o cr cg cb a).getByte j = cv.getByte j :=
  setBytes4_outside _ _ _ _ _ _ _ h

theorem fillOverRow_outside (sr sg sb sa a : ℕ) :
    ∀ (n : ℕ) (cv : Canvas) (o j : ℤ),
      (∀ k : ℕ, k < n → ∀ ch : ℕ, ch < 4 → j ≠ o + 4 * k + ch) →
      (fillOverRow cv o sr sg sb sa a n).getByte j = cv.getByte j := by
  intro n
  induction n with
  | zero => exact fun cv o j h => rfl
  | succ n ih =>
    intro cv o j h
    unfold fillOverRow
    rw [ih _ _ _ (fun k hk ch hch => by
      have := h (k + 1) (by omega) ch hch
      push_cast at this ⊢
      omega)]
    exact setBytes4_outside _ _ _ _ _ _ _ (fun ch hch => by
      have := h 0 (by omega) ch hch
      push_cast at this ⊢
      omega)

theorem fillOverRows_outside (w : ℕ) (stride : ℤ) (sr sg sb sa a : ℕ) :
    ∀ (n : ℕ) (cv : Canvas) (o j : ℤ),
      (∀ m : ℕ, m < n → ∀ k : ℕ, k < w → ∀ ch : ℕ, ch < 4 →
        j ≠ o + m * stride + 4 * k + ch) →
      (fillOverRows cv o w stride sr sg sb sa a n).getByte j = cv.getByte j := by
  intro n
  induction n with
  | zero => exact fun cv o j h => rfl
  | succ n ih =>
    intro cv o j h
    unfold fillOverRows
    rw [ih _ _ _ (fun m hm k hk ch hch => by
      have hx := h (m + 1) (by omega) k hk ch hch
      intro he
      apply hx
      rw [he]
      push_cast
      ring)]
    exact fillOverRow_outside _ _ _ _ _ _ _ _ _ (fun k hk ch hch => by
      have hx := h 0 (by omega) k hk ch hch
      intro he
      apply hx
      rw [he]
      push_cast
      ring)

theorem blendRow_outside (cr cg cb a : ℕ) :
    ∀ (n : ℕ) (cv : Canvas) (o j : ℤ),
      (∀ k : ℕ, k < n → ∀ ch : ℕ, ch < 4 → j ≠ o + 4 * k + ch) →
      (blendRow cv o cr cg cb a n).getByte j = cv.getByte j := by
  intro n
  induction n with
  | zero => exact fun cv o j h => rfl
  | succ n ih =>
    intro cv o j h
    unfold blendRow
    rw [ih _ _ _ (fun k hk ch hch => by
      have := h (k + 1) (by omega) ch hch
      push_cast at this ⊢
      omega)]
    exact blendBytesAt_outside _ _ _ _ _ _ _ (fun ch hch => by
      have := h 0 (by omega) ch hch
      push_cast at this ⊢
      omega)

theorem blendRows_outside (w : ℕ) (stride : ℤ) (cr cg cb a : ℕ) :
    ∀ (n : ℕ) (cv : Canvas) (o j : ℤ),
      (∀ m : ℕ, m < n → ∀ k : ℕ, k < w → ∀ ch : ℕ, ch < 4 →
        j ≠ o + m * stride + 4 * k + ch) →
      (blendRows cv o w stride cr cg cb a n).getByte j = cv.getByte j := by
  intro n
  induction n with
  | zero => exact fun cv o j h => rfl
  | succ n ih =>
    intro cv o j h
    unfold blendRows
    rw [ih _ _ _ (fun m hm k hk ch hch => by
      have hx := h (m + 1) (by omega) k hk ch hch
      intro he
      apply hx
      rw [he]
      push_cast
      ring)]
    exact blendRow_outside _ _ _ _ _ _ _ _ (fun k hk ch hch => by
      have hx := h 0 (by omega) k hk ch hch
      intro he
      apply hx
      rw [he]
      push_cast
      ring)

theorem fillRectFast_outside (cv : Canvas) (rect : GRect) (c : RGBA) (j : ℤ)
    (h : ∀ x y : ℤ, (rect.intersect cv.bounds).mem x y → ∀ ch : ℕ, ch < 4 →
      j ≠ cv.off x y + ch) :
    (fillRectFast cv rect c).getByte j = cv.getByte j := by
  unfold fillRectFast
  dsimp only
  apply fillOverRows_outside
  intro m hm k hk ch hch
  set r := rect.intersect cv.bounds with hr
  have hmem : r.mem (r.minX + k) (r.minY + m) := by
    have hdx : r.dx = r.maxX - r.minX := rfl
    have hdy : r.dy = r.maxY - r.minY := rfl
    unfold GRect.mem
    omega
  have := h _ _ hmem ch hch
  rw [off_step] at this
  intro he
  apply this
  rw [he]
  try push_cast
  try ring

theorem fillRectBlend_outside (cv : Canvas) (rect : GRect) (c : RGBA) (j : ℤ)
    (h : ∀ x y : ℤ, (rect.intersect cv.bounds).mem x y → ∀ ch : ℕ, ch < 4 →
      j ≠ cv.off x y + ch) :
    (fillRectBlend cv rect c).getByte j = cv.getByte j := by
  unfold fillRectBlend
  dsimp only
  split
  · rfl
  split
  · rfl
  split
  · apply fillRectFast_outside
    intro x y hmem ch hch
    rw [mem_intersect, mem_intersect] at hmem
    exact h x y (by rw [mem_intersect]; exact ⟨hmem.1.1, hmem.2⟩) ch hch
  · apply blendRows_outside
    intro m hm k hk ch hch
    set r := rect.intersect cv.bounds with hr
    have hmem : r.mem (r.minX + k) (r.minY + m) := by
      have hdx : r.dx = r.maxX - r.minX := rfl
      have hdy : r.dy = r.maxY - r.minY := rfl
      unfold GRect.mem
      omega
    have := h _ _ hmem ch hch
    rw [off_step] at this
    intro he
    apply this
    rw [he]
    try push_cast
    try ring

/-- C3 — out-of-bounds pixel writes are no-ops and rectangle fills stay
within the clipped rectangle: `blendPixel` and `blendPixelF` leave the canvas
untouched when the target pixel is outside the bounds; `fillRectBlend`
preserves the buffer's geometry and length and changes no byte outside the
footprint of `rect ∩ bounds`; under well-formedness that footprint lies
entirely inside the buffer, so no write ever lands outside it. -/
theorem C3_bounded_writes (cv : Canvas) (x y : ℤ) (c : RGBA) (cov : ℚ)
    (rect : GRect) (hout : ¬ cv.inBounds x y) :
    blendPixel cv x y c = cv ∧
    blendPixelF cv x y c cov = cv ∧
    SameShape cv (fillRectBlend cv rect c) ∧
    (∀ j : ℤ, (∀ x' y' : ℤ, (rect.intersect cv.bounds).mem x' y' → ∀ ch : ℕ,
        ch < 4 → j ≠ cv.off x' y' + ch) →
      (fillRectBlend cv rect c).getByte j = cv.getByte j) ∧
    (cv.WF → ∀ x' y' : ℤ, (rect.intersect cv.bounds).mem x' y' →
      0 ≤ cv.off x' y' ∧ (cv.off x' y').toNat + 3 < cv.pix.size) := by
    have hob : ∀ c' : RGBA, blendPixel cv x y c' = cv := by
      intro c'
      unfold blendPixel
      dsimp only
      rw [if_pos]
      unfold Canvas.inBounds GRect.mem at hout
      omega
    refine ⟨hob c, ?_, sameShape_fillRectBlend ..,
      fun j hj => fillRectBlend_outside cv rect c j hj, ?_⟩
    · unfold blendPixelF
      split
      · rfl
      split
      · exact hob c
      · exact hob _
    · intro hwf x' y' hmem
      rw [mem_intersect] at hmem
      exact off_range cv hwf hmem.2

/-- C3 witness: the theorem applied at a concrete canvas and an
out-of-bounds pixel. -/
theorem C3_bounded_writes_witness :
    ¬ (newRGBA (goRect 0 0 2 1)).inBounds 5 0 ∧
    blendPixel (newRGBA (goRect 0 0 2 1)) 5 0 ⟨1, 2, 3, 200⟩ = newRGBA (goRect 0 0 2 1) := by
  refine ⟨by decide, ?_⟩
  exact (C3_bounded_writes (newRGBA (goRect 0 0 2 1)) 5 0 ⟨1, 2, 3, 200⟩ (1/2)
    (goRect 0 0 1 1) (by decide)).1

theorem edgeIntersect_eq_spec (p q : FPoint) (fy : ℚ) :
    edgeIntersect p q fy = edgeIntersectSpec p q fy := by
  unfold edgeIntersect edgeIntersectSpec
  dsimp only
  rcases le_or_lt p.y q.y with h | h
  · rw [if_neg (not_lt.mpr h)]
    dsimp only
    rw [min_eq_left h, max_eq_right h]
    by_cases hD : p.y ≤ fy ∧ fy < q.y
    · have hC : ¬(fy < p.y ∨ fy ≥ q.y) := by
        push_neg
        exact hD
      have hlt : p.y < q.y := lt_of_le_of_lt hD.1 hD.2
      rw [if_neg hC, if_pos hD, if_neg (sub_ne_zero.mpr (ne_of_gt hlt))]
    · have hC : fy < p.y ∨ fy ≥ q.y := by
        by_contra hcon
        push_neg at hcon
        exact hD ⟨hcon.1, hcon.2⟩
      rw [if_pos hC, if_neg hD]
  · rw [if_pos h]
    dsimp only
    rw [min_eq_right (le_of_lt h), max_eq_left (le_of_lt h)]
    by_cases hD : q.y ≤ fy ∧ fy < p.y
    · have hC : ¬(fy < q.y ∨ fy ≥ p.y) := by
        push_neg
        exact hD
      rw [if_neg hC, if_pos hD, if_neg (sub_ne_zero.mpr (ne_of_lt h))]
    · have hC : fy < q.y ∨ fy ≥ p.y := by
        by_contra hcon
        push_neg at hcon
        exact hD ⟨hcon.1, hcon.2⟩
      rw [if_pos hC, if_neg hD]

theorem scanIntersections_eq_spec (pts : List FPoint) (fy : ℚ) :
    scanIntersections pts fy = scanIntersectionsSpec pts fy := by
  unfold scanIntersections scanIntersectionsSpec
  simp only [edgeIntersect_eq_spec]

/-- C5 — the scanline polygon fill implements exactly the spec's rule: for
every scanline `fy = y + 0.5`, an edge `(pi, pj)` contributes iff
`min(pi.y, pj.y) ≤ fy < max(pi.y, pj.y)` with intersection
`pi.x + (fy − pi.y)/(pj.y − pi.y)·(pj.x − pi.x)` (zero-height edges skipped),
the intersections are sorted ascending, paired adjacently, and the pixels
`[ceil x_k, floor x_(k+1)]` inclusive are filled. -/
theorem C5_fillPolygon_follows_spec (cv : Canvas) (pts : List FPoint) (c : RGBA)
    (h : 3 ≤ pts.length) : fillPolygon cv pts c = fillPolygonSpec cv pts c := by
  rcases pts with _ | ⟨a, _ | ⟨b, _ | ⟨d, rest⟩⟩⟩
  · simp at h
  · simp at h
  · simp at h
  · unfold fillPolygon fillPolygonSpec
    simp only [scanIntersections_eq_spec]

/-- C5 witness: the theorem applied to a concrete right triangle. -/
theorem C5_fillPolygon_follows_spec_witness :
    3 ≤ ([⟨0, 0⟩, ⟨4, 0⟩, ⟨0, 4⟩] : List FPoint).length ∧
    fillPolygon (newRGBA (goRect 0 0 8 8)) [⟨0, 0⟩, ⟨4, 0⟩, ⟨0, 4⟩] ⟨255, 255, 255, 255⟩ =
      fillPolygonSpec (newRGBA (goRect 0 0 8 8)) [⟨0, 0⟩, ⟨4, 0⟩, ⟨0, 4⟩]
        ⟨255, 255, 255, 255⟩ :=
  ⟨by decide, C5_fillPolygon_follows_spec (newRGBA (goRect 0 0 8 8))
    [⟨0, 0⟩, ⟨4, 0⟩, ⟨0, 4⟩] ⟨255, 255, 255, 255⟩ (by decide)⟩

theorem twoPi_pos : (0 : ℚ) < twoPi := by norm_num [twoPi, pi64]

theorem normUp_spec : ∀ a : ℚ, (∃ k : ℕ, normUp a = a + k * twoPi) ∧ 0 ≤ normUp a := by
  intro a
  induction a using normUp.induct with
  | case1 a h ih =>
    rw [normUp, if_pos h]
    obtain ⟨⟨k, hk⟩, hpos⟩ := ih
    refine ⟨⟨k + 1, ?_⟩, hpos⟩
    rw [hk]
    push_cast
    ring
  | case2 a h =>
    rw [normUp, if_neg h]
    exact ⟨⟨0, by push_cast; ring⟩, le_of_not_lt h⟩

theorem normDown_spec : ∀ a : ℚ, (∃ k : ℕ, normDown a = a - k * twoPi) ∧
    (0 ≤ a → 0 ≤ normDown a ∧ normDown a < twoPi) := by
  intro a
  induction a using normDown.induct with
  | case1 a h ih =>
    rw [normDown, if_pos h]
    obtain ⟨⟨k, hk⟩, hbox⟩ := ih
    refine ⟨⟨k + 1, ?_⟩, fun h0 => hbox (by linarith)⟩
    rw [hk]
    push_cast
    ring
  | case2 a h =>
    rw [normDown, if_neg h]
    exact ⟨⟨0, by push_cast; ring⟩, fun h0 => ⟨h0, lt_of_not_ge h⟩⟩

theorem normAngle_spec (a : ℚ) : (∃ k : ℤ, normAngle a = a + k * twoPi) ∧
    0 ≤ normAngle a ∧ normAngle a < twoPi := by
  unfold normAngle
  obtain ⟨⟨ku, hku⟩, hpos⟩ := normUp_spec a
  obtain ⟨⟨kd, hkd⟩, hbox⟩ := normDown_spec (normUp a)
  obtain ⟨hge, hlt⟩ := hbox hpos
  refine ⟨⟨(ku : ℤ) - kd, ?_⟩, hge, hlt⟩
  rw [hkd, hku]
  push_cast
  ring

theorem norm_congr {x y : ℚ} {k : ℤ} (hx : 0 ≤ x) (hx2 : x < twoPi) (hy : 0 ≤ y)
    (hy2 : y < twoPi) (h : x = y + k * twoPi) : x = y := by
  have ht := twoPi_pos
  have hup : (k : ℚ) * twoPi < twoPi := by linarith
  have hdn : -twoPi < (k : ℚ) * twoPi := by linarith
  have h1 : (k : ℚ) < 1 := by nlinarith
  have h2 : (-1 : ℚ) < k := by nlinarith
  have hk0 : k = 0 := by
    have h1i : k < 1 := by exact_mod_cast h1
    have h2i : (-1 : ℤ) < k := by exact_mod_cast h2
    omega
  rw [h, hk0]
  push_cast
  ring

theorem normAngle_add_twoPi (a : ℚ) : normAngle (a + twoPi) = normAngle a := by
  obtain ⟨⟨k1, hk1⟩, hb1, hb2⟩ := normAngle_spec (a + twoPi)
  obtain ⟨⟨k2, hk2⟩, hc1, hc2⟩ := normAngle_spec a
  refine norm_congr (k := k1 + 1 - k2) hb1 hb2 hc1 hc2 ?_
  rw [hk1, hk2]
  push_cast
  ring

/-- C8 — the slice-membership test is invariant under adding a full turn
(the code's `2*math.Pi`) to the angle, or to both sweep boundaries. -/
theorem C8_angleInSweep_periodic (a s e : ℚ) :
    angleInSweep (a + twoPi) s e = angleInSweep a s e ∧
    angleInSweep a (s + twoPi) (e + twoPi) = angleInSweep a s e := by
  unfold angleInSweep
  rw [normAngle_add_twoPi a, normAngle_add_twoPi s, normAngle_add_twoPi e]
  exact ⟨rfl, rfl⟩

theorem adjustRange_eq_spec (m M : ℚ) : adjustRange m M = specAxisRange m M := by
  unfold adjustRange specAxisRange
  rfl

theorem foldl_seriesNest {σ : Type} (g : σ → ℚ → σ) (f : ChartSeries → List ℚ) :
    ∀ (series : List ChartSeries) (init : σ),
      series.foldl (fun st s => (f s).foldl g st) init = (series.flatMap f).foldl g init := by
  intro series
  induction series with
  | nil => intro init; rfl
  | cons s rest ih =>
    intro init
    simp only [List.foldl_cons, List.flatMap_cons, List.foldl_append, ih]

theorem foldl_minIf (vs : List ℚ) : ∀ v : ℚ,
    vs.foldl (fun acc w => if w < acc then w else acc) v = vs.foldl min v := by
  induction vs with
  | nil => intro v; rfl
  | cons w vs ih =>
    intro v
    simp only [List.foldl_cons]
    rw [ih]
    congr 1
    rcases lt_or_ge w v with h | h
    · rw [if_pos h, min_eq_right (le_of_lt h)]
    · rw [if_neg (not_lt.mpr h), min_eq_left h]

theorem foldl_maxIf (vs : List ℚ) : ∀ v : ℚ,
    vs.foldl (fun acc w => if w > acc then w else acc) v = vs.foldl max v := by
  induction vs with
  | nil => intro v; rfl
  | cons w vs ih =>
    intro v
    simp only [List.foldl_cons]
    rw [ih]
    congr 1
    rcases lt_or_ge v w with h | h
    · rw [if_pos h, max_eq_right (le_of_lt h)]
    · rw [if_neg (not_lt.mpr h), max_eq_left h]

theorem foldl_rangeStep_false (vs : List ℚ) : ∀ mn mx : ℚ,
    vs.foldl rangeStep (mn, mx, false) =
      (vs.foldl (fun acc w => if w < acc then w else acc) mn,
       vs.foldl (fun acc w => if w > acc then w else acc) mx, false) := by
  induction vs with
  | nil => intro mn mx; rfl
  | cons w vs ih =>
    intro mn mx
    simp only [List.foldl_cons]
    rw [show rangeStep (mn, mx, false) w =
      (if w < mn then w else mn, if w > mx then w else mx, false) from rfl, ih]

theorem foldl_lineRangeStep (vs : List ℚ) : ∀ A B : ℚ,
    vs.foldl lineRangeStep (A, B) =
      (vs.foldl (fun acc w => if w < acc then w else acc) A,
       vs.foldl (fun acc w => if w > acc then w else acc) B) := by
  induction vs with
  | nil => intro A B; rfl
  | cons w vs ih =>
    intro A B
    simp only [List.foldl_cons]
    rw [show lineRangeStep (A, B) w =
      (if w < A then w else A, if w > B then w else B) from rfl, ih]

theorem pieTotal_foldl (s : ChartSeries) : ∀ (l : List String) (t : ℚ),
    l.foldl (fun t cat =>
        let v := mapLookup s.values cat
        if v > 0 then t + v else t) t =
      t + ((l.map (mapLookup s.values)).filter fun v => decide (0 < v)).sum := by
  intro l
  induction l with
  | nil =>
    intro t
    simp
  | cons cat l ih =>
    intro t
    simp only [List.foldl_cons, List.map_cons, List.filter_cons]
    rcases lt_or_ge 0 (mapLookup s.values cat) with h | h
    · rw [if_pos (show mapLookup s.values cat > 0 from h)]
      simp only [decide_eq_true_eq, if_pos h, List.sum_cons]
      rw [ih]
      ring
    · rw [if_neg (not_lt.mpr h)]
      simp only [decide_eq_true_eq, if_neg (not_lt.mpr h)]
      exact ih t

/-- C6 — chart value ranges, the pie total and the doughnut total.  For the
bar chart (and with the identical scan, the line, area and scatter charts)
the scaling range is the min/max over all scanned series values with the
spec's two clamps applied; the pie total and the doughnut total each discard
the non-positive values and sum the positive ones only, and a zero positive
total draws nothing for either chart. -/
theorem C6_chart_value_ranges :
    (∀ (series : List ChartSeries) (v : ℚ) (vs : List ℚ), barVals series = v :: vs →
      barChartRange series = specAxisRange (vs.foldl min v) (vs.foldl max v)) ∧
    (∀ (series : List ChartSeries) (v : ℚ) (vs : List ℚ), lineVals series = v :: vs →
      -maxFloat64 ≤ v → v ≤ maxFloat64 →
      lineChartRange series = specAxisRange (vs.foldl min v) (vs.foldl max v)) ∧
    (∀ s : ChartSeries, pieTotal s =
      ((s.categories.map (mapLookup s.values)).filter fun v => decide (0 < v)).sum) ∧
    (∀ (env : Env) (cv : Canvas) (s : ChartSeries) (rest : List ChartSeries)
      (px py pw ph : ℤ), pieTotal s = 0 →
      renderPieChart env cv (s :: rest) px py pw ph = cv) ∧
    (∀ s : ChartSeries, doughnutTotal s =
      ((s.categories.map (mapLookup s.values)).filter fun v => decide (0 < v)).sum) ∧
    (∀ (env : Env) (cv : Canvas) (c : DoughnutChart) (s : ChartSeries)
      (rest : List ChartSeries) (px py pw ph : ℤ), c.series = s :: rest →
      doughnutTotal s = 0 →
      renderDoughnutChart env cv c px py pw ph = cv) := by
  refine ⟨?bar, ?line, ?pie, ?pieZero, ?dough, ?doughZero⟩
  case bar =>
    intro series v vs h
    unfold barChartRange barChartRawRange
    rw [foldl_seriesNest rangeStep (fun s => s.categories.map (mapLookup s.values))]
    rw [show series.flatMap (fun s => s.categories.map (mapLookup s.values)) =
      barVals series from rfl, h]
    simp only [List.foldl_cons]
    rw [show rangeStep (0, 0, true) v = (v, v, false) from rfl]
    rw [foldl_rangeStep_false]
    dsimp only
    rw [foldl_minIf, foldl_maxIf, adjustRange_eq_spec]
  case line =>
    intro series v vs h hlo hhi
    unfold lineChartRange
    rw [foldl_seriesNest lineRangeStep (fun s => s.values.map Prod.snd)]
    rw [show series.flatMap (fun s => s.values.map Prod.snd) = lineVals series from rfl, h]
    simp only [List.foldl_cons]
    rw [show lineRangeStep (maxFloat64, -maxFloat64) v =
      (if v < maxFloat64 then v else maxFloat64,
       if v > -maxFloat64 then v else -maxFloat64) from rfl]
    have hmin : (if v < maxFloat64 then v else maxFloat64) = v := by
      rcases lt_or_ge v maxFloat64 with hv | hv
      · rw [if_pos hv]
      · rw [if_neg (not_lt.mpr hv)]
        linarith
    have hmax : (if v > -maxFloat64 then v else -maxFloat64) = v := by
      rcases lt_or_ge (-maxFloat64) v with hv | hv
      · rw [if_pos hv]
      · rw [if_neg (not_lt.mpr hv)]
        linarith
    rw [hmin, hmax, foldl_lineRangeStep]
    dsimp only
    rw [foldl_minIf, foldl_maxIf, adjustRange_eq_spec]
  case pie =>
    intro s
    unfold pieTotal
    rw [pieTotal_foldl]
    ring
  case pieZero =>
    intro env cv s rest px py pw ph h
    unfold renderPieChart
    dsimp only
    rw [if_pos h]
    split <;> rfl
  case dough =>
    intro s
    unfold doughnutTotal
    rw [pieTotal_foldl]
    ring
  case doughZero =>
    intro env cv c s rest px py pw ph hser h
    unfold renderDoughnutChart
    rw [hser]
    dsimp only
    rw [if_pos h]
    split <;> rfl

/-- C6 witness: the theorem's conjuncts applied at concrete series. -/
theorem C6_chart_value_ranges_witness :
    (barVals [⟨["a", "b"], [("a", 10), ("b", 20)], none⟩] = 10 :: [20] ∧
      barChartRange [⟨["a", "b"], [("a", 10), ("b", 20)], none⟩] =
        specAxisRange (([20] : List ℚ).foldl min 10) (([20] : List ℚ).foldl max 10)) ∧
    (pieTotal ⟨["a"], [("a", -3)], none⟩ = 0 ∧
      ∀ env cv, renderPieChart env cv [⟨["a"], [("a", -3)], none⟩] 0 0 8 8 = cv) ∧
    (doughnutTotal ⟨["a"], [("a", -3)], none⟩ = 0 ∧
      ∀ env cv, renderDoughnutChart env cv ⟨[⟨["a"], [("a", -3)], none⟩], 50⟩
        0 0 8 8 = cv) := by
  refine ⟨⟨by decide, ?_⟩, ⟨by decide, ?_⟩, ⟨by decide, ?_⟩⟩
  · exact C6_chart_value_ranges.1 [⟨["a", "b"], [("a", 10), ("b", 20)], none⟩] 10 [20]
      (by decide)
  · intro env cv
    exact C6_chart_value_ranges.2.2.2.1 env cv ⟨["a"], [("a", -3)], none⟩ [] 0 0 8 8
      (by decide)
  · intro env cv
    exact C6_chart_value_ranges.2.2.2.2.2 env cv ⟨[⟨["a"], [("a", -3)], none⟩], 50⟩
      ⟨["a"], [("a", -3)], none⟩ [] 0 0 8 8 rfl (by decide)

theorem goRect_dx_of_le (x0 y0 x1 y1 : ℤ) (h : x0 ≤ x1) :
    (goRect x0 y0 x1 y1).dx = x1 - x0 := by
  unfold goRect GRect.dx
  dsimp only
  rw [if_neg (not_lt.mpr h)]

theorem goRect_dy_of_le (x0 y0 x1 y1 : ℤ) (h : y0 ≤ y1) :
    (goRect x0 y0 x1 y1).dy = y1 - y0 := by
  unfold goRect GRect.dy
  dsimp only
  rw [if_neg (not_lt.mpr h)]

theorem sameShape_renderSlideBody_img (env : Env) (opts : RenderOptions)
    (slide : Slide) (r : Renderer) :
    SameShape r.img (renderSlideBody env opts slide r).img := by
  unfold renderSlideBody
  dsimp only
  rcases hbc : opts.backgroundColor with _ | c
  · try dsimp only
    rcases hbg : slide.background with _ | f
    · try dsimp only
      exact sameShape_trans (sameShape_fillRectFast ..) (sameShape_renderShapes_img env _ _)
    · try dsimp only
      rcases hft : f.type
      · try dsimp only
        exact sameShape_trans (sameShape_fillRectFast ..) (sameShape_renderShapes_img env _ _)
      · try dsimp only
        exact sameShape_trans (sameShape_fillRectFast ..) (sameShape_renderShapes_img env _ _)
      · try dsimp only
        exact sameShape_trans (sameShape_fillGradientLinear ..) (sameShape_renderShapes_img env _ _)
      · try dsimp only
        exact sameShape_trans (sameShape_fillGradientPath ..) (sameShape_renderShapes_img env _ _)
  · try dsimp only
    exact sameShape_trans (sameShape_fillRectFast ..) (sameShape_renderShapes_img env _ _)

theorem slideToImage_result (env : Env) (p : Presentation) (i : ℤ)
    (optsIn : Option RenderOptions) (h : ¬(i < 0 ∨ i ≥ (p.slides.length : ℤ))) :
    ∃ img : Canvas, (SlideToImage env p i optsIn).fst = Except.ok img ∧
      img.bounds = goRect 0 0 (effWidth optsIn) (effHeight p optsIn) ∧
      (SlideToImage env p i optsIn).snd = optsIn.map fun _ => effOpts optsIn := by
  unfold SlideToImage
  rw [if_neg h]
  refine ⟨_, rfl, ?_, rfl⟩
  exact (sameShape_renderSlideBody_img ..).1

/-- C4 — `SlideToImage` fails exactly on an out-of-range slide index, with a
message citing the valid range `(0-(n-1))`; every in-range call succeeds, and
a non-positive requested width is coerced to 960 (the output image is 960
wide) with rendering proceeding without error. -/
theorem C4_index_error_iff (env : Env) (p : Presentation) (i : ℤ)
    (optsIn : Option RenderOptions) :
    ((i < 0 ∨ (p.slides.length : ℤ) ≤ i) →
      (SlideToImage env p i optsIn).fst = .error ("slide index " ++ toString i ++
        " out of range (0-" ++ toString ((p.slides.length : ℤ) - 1) ++ ")")) ∧
    (0 ≤ i → i < (p.slides.length : ℤ) →
      ((SlideToImage env p i optsIn).fst.map fun _ => ()) = .ok ()) ∧
    (∀ o : RenderOptions, optsIn = some o → 0 ≤ i → i < (p.slides.length : ℤ) →
      o.width ≤ 0 →
      ((SlideToImage env p i optsIn).fst.map fun img => img.bounds.dx) = .ok 960) := by
  refine ⟨?err, ?ok, ?wid⟩
  case err =>
    intro h
    unfold SlideToImage
    rw [if_pos (by omega)]
  case ok =>
    intro h1 h2
    obtain ⟨img, hok, -, -⟩ := slideToImage_result env p i optsIn (by omega)
    rw [hok]
    rfl
  case wid =>
    intro o ho h1 h2 hw
    obtain ⟨img, hok, hb, -⟩ := slideToImage_result env p i optsIn (by omega)
    have hW : effWidth optsIn = 960 := by
      subst ho
      unfold effWidth effOpts
      dsimp only [Option.getD]
      rw [if_pos hw]
    rw [hok]
    show Except.ok img.bounds.dx = Except.ok 960
    congr 1
    rw [hb, hW, goRect_dx_of_le 0 0 960 _ (by omega)]
    ring

/-- C4 witness: the theorem applied to a concrete one-slide presentation. -/
theorem C4_index_error_iff_witness :
    ((5 : ℤ) < 0 ∨ (presW.slides.length : ℤ) ≤ 5) ∧
    (SlideToImage envW presW 5 none).fst = .error ("slide index " ++ toString (5 : ℤ) ++
      " out of range (0-" ++ toString ((presW.slides.length : ℤ) - 1) ++ ")") ∧
    ((SlideToImage envW presW 0 (some opts0W)).fst.map fun img => img.bounds.dx) =
      .ok 960 :=
  ⟨by decide, (C4_index_error_iff envW presW 5 none).1 (by decide),
    (C4_index_error_iff envW presW 0 (some opts0W)).2.2 opts0W rfl (by decide)
      (by decide) (by decide)⟩

/-- C1 counterexample — the claim's `round` is wrong on the code: a 3:2
layout rendered at width 4 gives height `int(4·2/3) = 2`, not
`round(4·2/3) = 3`. -/
theorem C1_round_counterexample :
    ((SlideToImage envW presW 0 (some opts4)).fst.map fun img => img.bounds.dy) =
      .ok 2 ∧
    round ((4 : ℚ) * (2 : ℚ) / (3 : ℚ)) = 3 ∧ (2 : ℤ) ≠ 3 := by
  refine ⟨?_, ?_, by decide⟩
  · obtain ⟨img, hok, hb, -⟩ := slideToImage_result envW presW 0 (some opts4) (by decide)
    rw [hok]
    show Except.ok img.bounds.dy = Except.ok 2
    congr 1
    rw [hb]
    have hW : effWidth (some opts4) = 4 := rfl
    have hq : ((4 : ℤ) : ℚ) * ((2 : ℤ) : ℚ) / ((3 : ℤ) : ℚ) = 8 / 3 := by norm_num
    have hH : effHeight presW (some opts4) = 2 := by
      unfold effHeight trunc64
      rw [hW]
      show (if (0 : ℚ) ≤ ((4 : ℤ) : ℚ) * ((2 : ℤ) : ℚ) / ((3 : ℤ) : ℚ) then
        ⌊((4 : ℤ) : ℚ) * ((2 : ℤ) : ℚ) / ((3 : ℤ) : ℚ)⌋ else
        ⌈((4 : ℤ) : ℚ) * ((2 : ℤ) : ℚ) / ((3 : ℤ) : ℚ)⌉) = 2
      rw [hq, if_pos (by norm_num)]
      rw [Int.floor_eq_iff]
      norm_num
    rw [hW, hH]
    decide
  · rw [round_eq]
    have hq : (4 : ℚ) * 2 / 3 + 1 / 2 = 19 / 6 := by norm_num
    rw [hq, Int.floor_eq_iff]
    norm_num

/-- C1 amended — for positive layout dimensions and a positive requested
width, the output height is `⌊W·cy/cx⌋` (Go's `int(...)` truncation; the
value is non-negative so truncation is the floor), not the rounding the
claim states. -/
theorem C1_height_is_floor (env : Env) (p : Presentation) (i : ℤ)
    (o : RenderOptions) (h1 : 0 ≤ i) (h2 : i < (p.slides.length : ℤ))
    (hcx : 0 < p.layout.cx) (hcy : 0 < p.layout.cy) (hw : 0 < o.width) :
    ((SlideToImage env p i (some o)).fst.map fun img => img.bounds.dy) =
      .ok ⌊(o.width : ℚ) * (p.layout.cy : ℚ) / (p.layout.cx : ℚ)⌋ := by
  obtain ⟨img, hok, hb, -⟩ := slideToImage_result env p i (some o) (by omega)
  have hW : effWidth (some o) = o.width := by
    unfold effWidth effOpts
    dsimp only [Option.getD]
    rw [if_neg (by omega)]
  have hq : (0 : ℚ) ≤ (o.width : ℚ) * (p.layout.cy : ℚ) / (p.layout.cx : ℚ) := by
    have c1 : (0 : ℚ) < (p.layout.cx : ℚ) := by exact_mod_cast hcx
    have c2 : (0 : ℚ) ≤ (p.layout.cy : ℚ) := by exact_mod_cast le_of_lt hcy
    have c3 : (0 : ℚ) ≤ (o.width : ℚ) := by exact_mod_cast le_of_lt hw
    exact div_nonneg (mul_nonneg c3 c2) (le_of_lt c1)
  have hH : effHeight p (some o) =
      ⌊(o.width : ℚ) * (p.layout.cy : ℚ) / (p.layout.cx : ℚ)⌋ := by
    unfold effHeight trunc64
    rw [hW, if_pos hq]
  have hH0 : 0 ≤ effHeight p (some o) := by
    rw [hH]
    exact Int.floor_nonneg.mpr hq
  rw [hok]
  show Except.ok img.bounds.dy = _
  congr 1
  rw [hb, goRect_dy_of_le _ _ _ _ hH0, hH]
  ring

/-- C1 witness: the amended theorem applied at the concrete presentation. -/
theorem C1_height_is_floor_witness :
    (0 : ℤ) ≤ 0 ∧ (0 : ℤ) < (presW.slides.length : ℤ) ∧ 0 < presW.layout.cx ∧
    0 < presW.layout.cy ∧ 0 < opts4.width ∧
    ((SlideToImage envW presW 0 (some opts4)).fst.map fun img => img.bounds.dy) =
      .ok ⌊(opts4.width : ℚ) * (presW.layout.cy : ℚ) / (presW.layout.cx : ℚ)⌋ :=
  ⟨by decide, by decide, by decide, by decide, by decide,
    C1_height_is_floor envW presW 0 opts4 (by decide) (by decide) (by decide)
      (by decide) (by decide)⟩

theorem slideToImage_snd_fontCache (env : Env) (p : Presentation) (i : ℤ)
    (o : RenderOptions) : ∃ o', (SlideToImage env p i (some o)).snd = some o' ∧
      o'.fontCache = o.fontCache := by
  unfold SlideToImage
  split
  · exact ⟨o, rfl, rfl⟩
  · refine ⟨_, rfl, ?_⟩
    dsimp only [Option.getD]
    split <;> rfl

theorem slidesLoop_fontCache (env : Env) (p : Presentation) :
    ∀ (rem i : ℕ) (opts : RenderOptions) (acc : List Canvas),
      (slidesLoop env p i rem opts acc).2.fontCache = opts.fontCache := by
  intro rem
  induction rem with
  | zero =>
    intro i opts acc
    rfl
  | succ n ih =>
    intro i opts acc
    obtain ⟨o', ho', hfc⟩ := slideToImage_snd_fontCache env p (i : ℤ) opts
    unfold slidesLoop
    rcases hres : SlideToImage env p (i : ℤ) (some opts) with ⟨fst, snd⟩
    rw [hres] at ho'
    cases fst with
    | ok img =>
      dsimp only at ho' ⊢
      rw [ho']
      dsimp only [Option.getD]
      rw [ih]
      exact hfc
    | error e =>
      dsimp only at ho' ⊢
      rw [ho']
      exact hfc

/-- C9 — the caller's options object is mutated: an in-range `SlideToImage`
call stores 960 into a non-positive `Width`, and `SlidesToImages` stores a
newly created font cache into a nil `FontCache`. -/
theorem C9_options_mutation :
    (∀ (env : Env) (p : Presentation) (i : ℤ) (o : RenderOptions),
      0 ≤ i → i < (p.slides.length : ℤ) → o.width ≤ 0 →
      (SlideToImage env p i (some o)).snd = some { o with width := 960 }) ∧
    (∀ (env : Env) (p : Presentation) (o : RenderOptions), o.fontCache = none →
      ((SlidesToImages env p (some o)).snd.map fun o2 => o2.fontCache) =
        some (some (NewFontCache o.fontDirs))) := by
  constructor
  · intro env p i o h1 h2 hw
    obtain ⟨img, -, -, hsnd⟩ := slideToImage_result env p i (some o) (by omega)
    have heff : effOpts (some o) = { o with width := 960 } := by
      unfold effOpts
      dsimp only [Option.getD]
      rw [if_pos hw]
    rw [hsnd]
    show some (effOpts (some o)) = some { o with width := 960 }
    rw [heff]
  · intro env p o h
    unfold SlidesToImages
    dsimp only [Option.getD]
    rw [if_pos (by rw [h]; rfl)]
    dsimp only [Option.map]
    rw [slidesLoop_fontCache]

/-- C9 witness: the theorem applied to concrete options with width 0 and no
font cache. -/
theorem C9_options_mutation_witness :
    opts0W.width ≤ 0 ∧ opts0W.fontCache = none ∧
    (SlideToImage envW presW 0 (some opts0W)).snd = some { opts0W with width := 960 } ∧
    ((SlidesToImages envW presW (some opts0W)).snd.map fun o2 => o2.fontCache) =
      some (some (NewFontCache opts0W.fontDirs)) :=
  ⟨by decide, by decide,
    C9_options_mutation.1 envW presW 0 opts0W (by decide) (by decide) (by decide),
    C9_options_mutation.2 envW presW opts0W (by decide)⟩

/-- C7 — when the drawing's image bytes are present but do not decode, no
error propagates: the shape renders as a grey (200,200,200) rectangle of
1-pixel line width over its pixel box, and the walk continues with the
remaining shapes. -/
theorem C7_decode_failure_placeholder (env : Env) (r : Renderer) (s : DrawingShape)
    (hbytes : resolveImageData env s ≠ [])
    (hdec : env.decode (resolveImageData env s) = none) :
    renderDrawing env r s = { r with img := (drawRect r.img
      (goRect (r.emuToPixelX s.offsetX) (r.emuToPixelY s.offsetY)
        (r.emuToPixelX s.offsetX + r.emuToPixelX s.width)
        (r.emuToPixelY s.offsetY + r.emuToPixelY s.height))
      ⟨200, 200, 200, 255⟩ 1) } ∧
    (∀ (rest : List Shape) (r0 : Renderer),
      (Shape.drawing s :: rest).foldl (renderShape env) r0 =
        rest.foldl (renderShape env) (renderDrawing env r0 s)) := by
  constructor
  · unfold renderDrawing
    dsimp only
    rw [if_neg hbytes, hdec]
  · intro rest r0
    rfl

/-- C7 witness: a shape with one undecodable byte. -/
theorem C7_decode_failure_placeholder_witness :
    resolveImageData envW dshW ≠ [] ∧
    renderDrawing envW rW dshW = { rW with img := (drawRect rW.img
      (goRect (rW.emuToPixelX dshW.offsetX) (rW.emuToPixelY dshW.offsetY)
        (rW.emuToPixelX dshW.offsetX + rW.emuToPixelX dshW.width)
        (rW.emuToPixelY dshW.offsetY + rW.emuToPixelY dshW.height))
      ⟨200, 200, 200, 255⟩ 1) } :=
  ⟨by decide, (C7_decode_failure_placeholder envW rW dshW (by decide) rfl).1⟩

/-- C10 — with no embedded bytes and an empty or unreadable path,
`renderDrawing` returns with the canvas untouched; no placeholder is
drawn. -/
theorem C10_empty_drawing_untouched (env : Env) (r : Renderer) (s : DrawingShape)
    (h1 : s.data = []) (h2 : s.path = "" ∨ env.readFile s.path = none) :
    renderDrawing env r s = r := by
  have hres : resolveImageData env s = [] := by
    unfold resolveImageData
    rcases h2 with h2 | h2
    · rw [if_neg]
      · exact h1
      · rintro ⟨-, hne⟩
        exact hne h2
    · by_cases hp : s.path = ""
      · rw [if_neg]
        · exact h1
        · rintro ⟨-, hne⟩
          exact hne hp
      · rw [if_pos ⟨h1, hp⟩, h2]
        exact h1
  unfold renderDrawing
  dsimp only
  rw [if_pos hres]

/-- C10 witness: a shape with empty data and an unreadable path. -/
theorem C10_empty_drawing_untouched_witness :
    dshEmptyW.data = [] ∧ renderDrawing envW rW dshEmptyW = rW :=
  ⟨rfl, C10_empty_drawing_untouched envW rW dshEmptyW rfl (Or.inr rfl)⟩

end GoPPT
